import Mathlib

/-!
# Verification of the Splinter entity-classification and annotation engine

This file gives a shallow embedding in Lean 4 of the core data model and
algorithms of the Splinter VS Code extension (TypeScript sources under
`src/`): the classified model (`model.ts`), the move/merge reorganization
primitives (`moveOperations` / `moveArguments`), the serialization codec
(`replacer` / `reviver`), the auto-annotation rules (`autoAnnotate.ts`,
`analyzer/base.ts`, `analyzer/django.ts`), the entity resolvers
(`analyzer/typeorm.ts`, `analyzer/django.ts`) and the analysis driver
(`runAnalyzer` in `extension.ts`).

JavaScript data structures are embedded as follows: a `Map` (which preserves
insertion order) becomes an association list `List (String × α)` together
with JS `Map` operations (`get` = first matching key, `set` = update in
place or append); a `Set` becomes a `List` deduplicated keeping first
occurrences; mutation becomes explicit state passing; `undefined` becomes
`Option`.
-/

namespace Splinter

/-- `Selection` from `model.ts`: a file path plus a source range. -/
structure Selection where
  filePath : String
  fromLine : Int
  fromColumn : Int
  toLine : Int
  toColumn : Int
deriving DecidableEq, Repr

/-- `Argument` from `model.ts`. -/
structure Argument where
  selection : Option Selection
  name : String
  note : String
  isCustom : Bool
deriving DecidableEq, Repr

/-- Operation types from `model.ts` (`"read" | "write" | "other" | "transaction"`). -/
inductive OpType where
  | read
  | write
  | other
  | transaction
deriving DecidableEq, Repr

/-- `Operation` from `model.ts`. -/
structure Operation where
  selection : Option Selection
  name : String
  arguments : List Argument
  type : OpType
  note : String
  isCustom : Bool
deriving DecidableEq, Repr

/-- `Entity` from `model.ts`. -/
structure Entity where
  selection : Option Selection
  name : String
  operations : List Operation
  note : String
  isCustom : Bool
deriving DecidableEq, Repr

/-- A group of the classified model (`Map<string, Entity>` in `model.ts`),
embedded as an insertion-ordered association list. -/
abbrev Group := List (String × Entity)

/-- JS `Map.get`: the value at the first (and, under the uniqueness
invariant, only) entry with the given key. -/
def mapGet {α : Type} (g : List (String × α)) (k : String) : Option α :=
  match g with
  | [] => none
  | (k', v) :: rest => if k' = k then some v else mapGet rest k

/-- JS `Map.has`. -/
def mapHas {α : Type} (g : List (String × α)) (k : String) : Bool :=
  (mapGet g k).isSome

/-- JS `Map.set`: overwrite the entry in place if the key is present,
otherwise append a new entry at the end (insertion order). -/
def mapSet {α : Type} (g : List (String × α)) (k : String) (v : α) :
    List (String × α) :=
  match g with
  | [] => [(k, v)]
  | (k', v') :: rest =>
    if k' = k then (k, v) :: rest else (k', v') :: mapSet rest k v

/-- Mutating `entity.operations.push(op)` for the entity stored at key `k`. -/
def pushOpAt (g : Group) (k : String) (op : Operation) : Group :=
  g.map fun (k', e) =>
    if k' = k then (k', { e with operations := e.operations ++ [op] }) else (k', e)

/-! ## String helpers

`note.includes(tag)` in JS is substring containment; `appendNote` is from
`model.ts`. -/

/-- JS `String.prototype.includes`: `pat` occurs as a contiguous substring
of `s` (the empty pattern always occurs). -/
def strIncludes (s pat : String) : Bool :=
  decide (pat.toList <:+: s.toList)

/-- JS `String.prototype.endsWith` (on character lists). -/
def strEndsWith (s suffix : String) : Bool :=
  suffix.toList.isSuffixOf s.toList

/-- JS `String.prototype.startsWith` (on character lists). -/
def strStartsWith (s pre : String) : Bool :=
  pre.toList.isPrefixOf s.toList

/-- The scanning loop of JS `String.prototype.split` for a non-empty
separator: cut at each leftmost, non-overlapping occurrence of `sep`.
`fuel` bounds the recursion (`splitChars` is called with the length of the
input, which suffices since every step consumes at least one character). -/
def splitChars (sep : List Char) : Nat → List Char → List Char → List (List Char)
  | _, [], acc => [acc.reverse]
  | 0, s, acc => [acc.reverse ++ s]
  | fuel + 1, c :: rest, acc =>
    if sep.isPrefixOf (c :: rest) then
      acc.reverse :: splitChars sep fuel ((c :: rest).drop sep.length) []
    else splitChars sep fuel rest (c :: acc)

/-- JS `s.split(sep)` for a non-empty separator (the engine never splits
on the empty string). -/
def strSplitOn (s sep : String) : List String :=
  if sep = "" then [s]
  else (splitChars sep.toList s.toList.length s.toList []).map String.mk

/-- JS code-unit-order string comparison on character lists (the default
`Array.prototype.sort` comparator for strings; the analyzed column names
are ASCII, where character order and code-unit order agree). -/
def charListLe : List Char → List Char → Bool
  | [], _ => true
  | _ :: _, [] => false
  | a :: as, b :: bs =>
    if a < b then true else if b < a then false else charListLe as bs

/-- String comparison used for sorting (see `charListLe`). -/
def strLe (a b : String) : Bool :=
  charListLe a.toList b.toList

/-- `appendNote` from `model.ts`: `if (!note) return more; return note + " " + more;`
(the only falsy `string` is the empty string). -/
def appendNote (note more : String) : String :=
  if note = "" then more else note ++ " " ++ more

/-! ## Reorganization engine: `moveOperations` / `moveArguments` (`model.ts`)

`MovedItemLocator` is the structural locator value; all five location
fields may be `undefined`.  The JS comparisons
`op.selection?.filePath === movedOperation.filePath` etc. compare an
optional chain (which is `undefined` when `selection` is absent) with an
optional field, so we compare `Option` values. -/

/-- `MovedItemLocator` from `model.ts` (`parentName` is display-only). -/
structure MovedItemLocator where
  name : String
  parentName : String
  filePath : Option String
  fromLine : Option Int
  toLine : Option Int
  fromColumn : Option Int
  toColumn : Option Int
deriving DecidableEq, Repr

/-- The structural match condition of `moveOperations` (`model.ts` lines
365-370): name equality plus field-by-field equality of the optional
selection with the locator's five location fields. -/
def opMatchesLocator (op : Operation) (m : MovedItemLocator) : Bool :=
  op.name = m.name
    && (op.selection.map (·.filePath)) = m.filePath
    && (op.selection.map (·.fromLine)) = m.fromLine
    && (op.selection.map (·.fromColumn)) = m.fromColumn
    && (op.selection.map (·.toLine)) = m.toLine
    && (op.selection.map (·.toColumn)) = m.toColumn

/-- The structural match condition of `moveArguments` (`model.ts` lines
407-412), one level down, for arguments. -/
def argMatchesLocator (a : Argument) (m : MovedItemLocator) : Bool :=
  a.name = m.name
    && (a.selection.map (·.filePath)) = m.filePath
    && (a.selection.map (·.fromLine)) = m.fromLine
    && (a.selection.map (·.fromColumn)) = m.fromColumn
    && (a.selection.map (·.toLine)) = m.toLine
    && (a.selection.map (·.toColumn)) = m.toColumn

/-- Index of the first operation of `ops` matching `m`, together with the
operation (the inner `for (const [index, op] of entity.operations.entries())`
loop of `moveOperations`, which `break`s on the first match). -/
def findOpIdx (ops : List Operation) (m : MovedItemLocator) : Option (Nat × Operation) :=
  match ops with
  | [] => none
  | op :: rest =>
    if opMatchesLocator op m then some (0, op)
    else (findOpIdx rest m).map fun (i, o) => (i + 1, o)

/-- The search loop of `moveOperations` over all entities of the source
group.  The `break` in the source only exits the inner loop, so a later
entity that also contains a match overwrites `srcEntity`/`operation`/
`operationIndex`: the result is the match in the LAST entity (in insertion
order) containing one, at the first matching index within that entity. -/
def findOpInGroup (g : Group) (m : MovedItemLocator) :
    Option (String × Nat × Operation) :=
  g.foldl
    (fun acc (ke : String × Entity) =>
      match findOpIdx ke.2.operations m with
      | some (i, op) => some (ke.1, i, op)
      | none => acc)
    none

/-- The target entity of a move: either an entity stored in the source
group itself (JS object identity with a group value, detected by key), or
an entity outside the group, represented by its operation list. -/
inductive MoveTarget where
  | inGroup (key : String)
  | external (ops : List Operation)
deriving DecidableEq, Repr

/-- Stable insertion sort, descending on a numeric measure: an element is
inserted before the first element whose measure is not larger, so elements
with equal measures keep their original relative order — the behavior of
the (stable) JS `sort(([a], [b]) => b - a)`. -/
def insertDescBy {α : Type} (f : α → Nat) (x : α) : List α → List α
  | [] => [x]
  | y :: ys => if f y ≤ f x then x :: y :: ys else y :: insertDescBy f x ys

/-- Stable sort by descending measure (see `insertDescBy`). -/
def sortDescBy {α : Type} (f : α → Nat) : List α → List α
  | [] => []
  | x :: xs => insertDescBy f x (sortDescBy f xs)

/-- `entity.operations.splice(index, 1)` applied at key `k`. -/
def deleteOpAt (g : Group) (k : String) (i : Nat) : Group :=
  g.map fun (k', e) =>
    if k' = k then (k', { e with operations := e.operations.eraseIdx i }) else (k', e)

/-- One iteration of the locator loop of `moveOperations`: find the
operation; skip if not found or if the source entity is the target
(`srcEntity === targetEntity`); otherwise push it onto the target's list
(immediately, as the source does) and record `(index, srcEntity)` for
deferred deletion. State: source group × external target list × recorded
deletions. -/
def moveOpStep (target : MoveTarget) (st : Group × List Operation × List (Nat × String))
    (m : MovedItemLocator) : Group × List Operation × List (Nat × String) :=
  let (g, ext, dels) := st
  match findOpInGroup g m with
  | none => (g, ext, dels)
  | some (k, i, op) =>
    match target with
    | .inGroup tk =>
      if k = tk then (g, ext, dels)
      else (pushOpAt g tk op, ext, dels ++ [(i, k)])
    | .external _ => (g, ext ++ [op], dels ++ [(i, k)])

/-- `moveOperations` from `model.ts`: process every locator, then delete the
recorded `(index, entity)` pairs sorted by index in descending order (to
avoid index shift).  Returns the updated source group and the updated
operation list of an external target (for a target inside the group, its
updated list is in the returned group). -/
def moveOperations (srcGroup : Group) (target : MoveTarget)
    (operations : List MovedItemLocator) : Group × List Operation :=
  let init : Group × List Operation × List (Nat × String) :=
    (srcGroup,
      (match target with
       | .inGroup _ => []
       | .external ops => ops),
      [])
  let (g, ext, dels) := operations.foldl (moveOpStep target) init
  let g' := (sortDescBy (fun d => d.1) dels).foldl
    (fun (acc : Group) (d : Nat × String) => deleteOpAt acc d.2 d.1) g
  (g', ext)

/-! ## Annotation engine: tag constants and shared helpers (`model.ts`,
`autoAnnotate.ts`, `analyzer/base.ts`, `analyzer/django.ts`) -/

def FULL_SCAN : String := "full-scan"

def CDA_TRAN : String := "cda-tran"

def NON_TRIVIAL : String := "non-trivial"

def NON_EQ : String := "non-eq"

/-- JS `"x__y".split("__")` (same semantics as `String.splitOn` for a
non-empty separator); the lookup suffix is the final segment
(`parts[parts.length - 1]`, always defined since `split` never returns an
empty array). -/
def lookupSuffix (name : String) : String :=
  (strSplitOn name "__").getLastD ""

/-- The "non-equality" lookup set (identical in
`django.ts autoAnnotateNonEqNonTrivial` and
`autoAnnotate.ts autoannotateNonEqNonTrivial`). -/
def NON_EQ_LOOKUPS : List String :=
  ["contains", "icontains", "startswith", "istartswith", "endswith",
   "iendswith", "gt", "gte", "lt", "lte", "range", "regex", "iregex"]

/-- The "non-trivial" lookup set of `django.ts` (lines 429-438): the
string-pattern lookups only — no `gt/gte/lt/lte` and no `range`. -/
def NON_TRIVIAL_LOOKUPS_DJANGO : List String :=
  ["contains", "icontains", "startswith", "istartswith", "endswith",
   "iendswith", "regex", "iregex"]

/-- The "non-trivial" lookup set of the shared `autoAnnotate.ts` module
(lines 125-135): the `django.ts` set plus `iexact`. -/
def NON_TRIVIAL_LOOKUPS_SHARED : List String :=
  ["iexact", "contains", "icontains", "startswith", "istartswith",
   "endswith", "iendswith", "regex", "iregex"]

/-- Whether some argument's lookup suffix belongs to `lookups` (the inner
argument loop that sets `hasTag`). -/
def opHasLookupIn (lookups : List String) (op : Operation) : Bool :=
  op.arguments.any fun a => lookups.contains (lookupSuffix a.name)

/-- The note update common to all simple rules: append `tag ++ "(a)"` if the
condition holds and the note does not already mention `tag`; if the note
mentions `tag` but the condition fails, the source only logs a
"double-check" diagnostic and does not mutate. -/
def annotateNote (tag : String) (cond : Bool) (note : String) : String :=
  if !(strIncludes note tag) then
    if cond then appendNote note (tag ++ "(a)") else note
  else note

/-- `autoAnnotateFullScan` condition: some operation name ends in `".all"`. -/
def entityHasFullScan (e : Entity) : Bool :=
  e.operations.any fun op => strEndsWith op.name ".all"

/-- `autoAnnotateFullScan` (identical in `autoAnnotate.ts`, `base.ts` and
`django.ts`): per recognized entity, tag the entity note. -/
def autoAnnotateFullScan (g : Group) : Group :=
  g.map fun ke =>
    (ke.1, { ke.2 with
      note := annotateNote FULL_SCAN (entityHasFullScan ke.2) ke.2.note })

/-- `autoAnnotateNonEqNonTrivial` from `django.ts` (lines 400-456),
restricted to the two valid tags its callers pass (`NON_EQ`,
`NON_TRIVIAL`); for any other tag the source shows an error and aborts
without mutating. -/
def autoAnnotateNonEqNonTrivial (tag : String) (g : Group) : Group :=
  let lookups := if tag = NON_EQ then NON_EQ_LOOKUPS else NON_TRIVIAL_LOOKUPS_DJANGO
  g.map fun ke =>
    (ke.1, { ke.2 with operations := ke.2.operations.map fun op =>
      { op with note := annotateNote tag (opHasLookupIn lookups op) op.note } })

/-- `autoannotateNonEqNonTrivial` from the shared `autoAnnotate.ts` module
(lines 96-153): same shape, but its non-trivial set also has `iexact`. -/
def autoannotateNonEqNonTrivialShared (tag : String) (g : Group) : Group :=
  let lookups := if tag = NON_EQ then NON_EQ_LOOKUPS else NON_TRIVIAL_LOOKUPS_SHARED
  g.map fun ke =>
    (ke.1, { ke.2 with operations := ke.2.operations.map fun op =>
      { op with note := annotateNote tag (opHasLookupIn lookups op) op.note } })

/-! ## Pairwise CDA-transitivity rule (`analyzer/base.ts` lines 33-81,
duplicated in `autoAnnotate.ts` lines 44-94) -/

/-- The filter-column list of an operation: first segment of each argument
name split on `"__"`, restricted to names splitting into 1-2 segments. -/
def cdaOfOperation (op : Operation) : List String :=
  op.arguments.foldl
    (fun acc a =>
      let parts := strSplitOn a.name "__"
      if 0 < parts.length ∧ parts.length ≤ 2 then acc ++ [parts.headD ""] else acc)
    []

/-- `covers` from the pairwise rule: after swapping so that `bigger` is at
least as long, every column of `smaller` occurs in `bigger`. -/
def covers (bigger smaller : List String) : Bool :=
  let p := if bigger.length < smaller.length then (smaller, bigger) else (bigger, smaller)
  p.2.all fun c => p.1.contains c

/-- All non-empty operation CDAs of an entity, in operation order. -/
def entityCdas (e : Entity) : List (List String) :=
  e.operations.foldl
    (fun acc op =>
      let cda := cdaOfOperation op
      if cda.length > 0 then acc ++ [cda] else acc)
    []

/-- The pairwise check: some pair of distinct positions whose CDAs do not
cover each other. -/
def pairwiseCdaTran (cdas : List (List String)) : Bool :=
  cdas.enum.any fun ic =>
    cdas.enum.any fun jc => ic.1 ≠ jc.1 && !(covers ic.2 jc.2)

/-- Pairwise `autoAnnotateCdaTran`: per recognized entity, tag the entity
note with `cda-tran(a)` when the pairwise check fires. -/
def autoAnnotateCdaTranPairwise (g : Group) : Group :=
  g.map fun ke =>
    (ke.1, { ke.2 with
      note := annotateNote CDA_TRAN (pairwiseCdaTran (entityCdas ke.2)) ke.2.note })

/-! ## Containment-forest CDA-transitivity rule (`part_013` lines 92-220)

The forest version of `autoAnnotateCdaTran` is parameterized by a
`getCda` callback returning the filter-column list of an operation (or
`undefined`).  JS `Set`s of column names are embedded as lists
deduplicated keeping first occurrences. -/

/-- `new Set(l)`: deduplicate keeping the first occurrence of each
element (accumulating the elements already seen). -/
def dedupFirstAux (seen : List String) : List String → List String
  | [] => []
  | x :: xs =>
    if seen.contains x then dedupFirstAux seen xs
    else x :: dedupFirstAux (x :: seen) xs

/-- See `dedupFirstAux`. -/
def dedupFirst (l : List String) : List String :=
  dedupFirstAux [] l

/-- Ascending insertion (for `Array.from(set).sort()`, the default
lexicographic string sort). -/
def insertAsc (x : String) : List String → List String
  | [] => [x]
  | y :: ys => if strLe x y then x :: y :: ys else y :: insertAsc x ys

/-- `Array.from(set).sort()`: lexicographic ascending sort. -/
def sortStrings : List String → List String
  | [] => []
  | x :: xs => insertAsc x (sortStrings xs)

/-- The canonical key of a column set:
`Array.from(cda_set).sort().join(",")`. -/
def cdaKeyOf (s : List String) : String :=
  String.intercalate "," (sortStrings s)

/-- `GraphNode` of the containment forest. -/
inductive GNode where
  | mk (cda : List String) (children : List GNode)

/-- The column set of a forest node. -/
def GNode.cda : GNode → List String
  | .mk c _ => c

/-- The children of a forest node. -/
def GNode.children : GNode → List GNode
  | .mk _ ch => ch

/-- `isSubset` from the forest rule. -/
def isSubsetStr (sub sup : List String) : Bool :=
  sub.all fun e => sup.contains e

/-- `addChild`: descend into the first child whose set is a superset of
the new set; if none, append a new leaf at the end.  The recursion of the
source (into a child's children or along the sibling list) is embedded
structurally on a fuel argument; every step passes one forest node, so
fuel exceeding the number of nodes in the forest never runs out (the
zero-fuel arm is unreachable at the call sites, which pass the number of
inserted sets plus one). -/
def addChild : Nat → List GNode → List String → List GNode
  | _, [], c => [GNode.mk c []]
  | 0, children, _ => children
  | fuel + 1, GNode.mk ccda cch :: rest, c =>
    if isSubsetStr c ccda then GNode.mk ccda (addChild fuel cch c) :: rest
    else GNode.mk ccda cch :: addChild fuel rest c

/-- `findBestPath`: the loop over the children starts from
`path = [], value = 0` and replaces the accumulator only on a strictly
greater child value; the node's own key is pushed at the end of the path
when its set is non-empty, adding the node's weight `w key`.  The
recursion is structural on a fuel argument consumed once per tree level;
fuel exceeding the forest depth never runs out. -/
def findBestPath (w : String → Nat) : Nat → GNode → List String × Nat
  | 0, _ => ([], 0)
  | fuel + 1, .mk cda children =>
    let best := (children.map (findBestPath w fuel)).foldl
      (fun acc c => if acc.2 < c.2 then c else acc) ([], 0)
    if cda.length > 0 then
      let key := cdaKeyOf cda
      (best.1 ++ [key], best.2 + w key)
    else best

/-- `cdaIndex.get(key)!.push(op)`. -/
def aIndexPush (idx : List (String × List Operation)) (k : String)
    (op : Operation) : List (String × List Operation) :=
  idx.map fun kv => if kv.1 = k then (kv.1, kv.2 ++ [op]) else kv

/-- The collection loop of the forest rule: returns the list of distinct
column sets in first-seen order (`cdas`), the index from canonical key to
the operations sharing that exact set (`cdaIndex`), and the operations
whose set is defined but empty (the per-entity contribution to
`remainingOperations`). -/
def collectCdas (getCda : Operation → Option (List String))
    (ops : List Operation) :
    List (List String) × List (String × List Operation) × List Operation :=
  ops.foldl
    (fun st op =>
      let (cdas, idx, rem) := st
      match getCda op with
      | none => (cdas, idx, rem)
      | some l =>
        let s := dedupFirst l
        if s.length > 0 then
          let key := cdaKeyOf s
          match mapGet idx key with
          | none => (cdas ++ [s], idx ++ [(key, [op])], rem)
          | some _ => (cdas, aIndexPush idx key op, rem)
        else (cdas, idx, rem ++ [op]))
    ([], [], [])

/-- Tagging of a "remaining" operation (empty or off-path column set): the
auto CDA tag is appended unless the note already mentions `cda-tran` or
`full-scan`. -/
def remainingCdaTag (op : Operation) : Operation :=
  if !(strIncludes op.note CDA_TRAN) && !(strIncludes op.note FULL_SCAN) then
    { op with note := appendNote op.note (CDA_TRAN ++ "(a)") }
  else op

/-- The forest `autoAnnotateCdaTran` of `part_013`, per entity.

The source collects operations into buckets keyed by the canonical set
key, tags each bucket on the best path with `cda[len/maxLen](a)`
(unconditionally appending; a pre-existing `cda-tran` mention only logs a
diagnostic), deletes those buckets, moves the leftover buckets into the
remaining list, and tags every remaining operation with `cda-tran(a)`
(guarded).  Since each operation belongs to exactly one bucket, this is
the per-operation transformation below.  The source's
`remainingOperations` array is shared across the entity loop, but
re-visiting an operation of an earlier entity never mutates it again: it
was either tagged (so its note now mentions `cda-tran`) or skipped because
its note mentions `cda-tran` or `full-scan`, and the guard rejects both. -/
def processEntityCda (getCda : Operation → Option (List String)) (e : Entity) :
    Entity :=
  let c := collectCdas getCda e.operations
  let sorted := sortDescBy (fun s => s.length) c.1
  let forest := sorted.foldl (addChild (sorted.length + 1)) []
  let w : String → Nat := fun k =>
    match mapGet c.2.1 k with
    | some ops => ops.length
    | none => 0
  let bestPath := (findBestPath w (sorted.length + 1) (GNode.mk [] forest)).1
  let maxLen := (strSplitOn (bestPath.getLastD "") ",").length
  let ops' := e.operations.map fun op =>
    match getCda op with
    | none => op
    | some l =>
      let s := dedupFirst l
      if s.length > 0 then
        let key := cdaKeyOf s
        if bestPath.contains key then
          let len := (strSplitOn key ",").length
          let tag := "cda[" ++ toString len ++ "/" ++ toString maxLen ++ "](a)"
          { op with note := appendNote op.note tag }
        else remainingCdaTag op
      else remainingCdaTag op
  let note' :=
    match bestPath.getLast? with
    | none => e.note
    | some bestCda =>
      if bestCda ≠ "" then
        if !(strIncludes e.note "cda[") then
          if bestCda.length > 0 then
            appendNote e.note ("cda[" ++ bestCda ++ "](a)")
          else e.note
        else e.note
      else e.note
  { e with operations := ops', note := note' }

/-- The forest `autoAnnotateCdaTran` over the recognized group. -/
def autoAnnotateCdaTranForest (getCda : Operation → Option (List String))
    (g : Group) : Group :=
  g.map fun ke => (ke.1, processEntityCda getCda ke.2)

/-- The standard column extraction used as `getCda`: the filter-column
list derived from argument names (as in the pairwise rule and §4.2 of the
spec), always defined. -/
def getCdaStd (op : Operation) : Option (List String) :=
  some (cdaOfOperation op)

/-! ## Entity summary step (`updateEntityAnnotation`, `part_013`
lines 222-246) -/

/-- JS `s.replace(pat, "")`: remove the first occurrence of `pat`. -/
def dropFirstOcc (pat : List Char) : List Char → List Char
  | [] => []
  | ch :: rest =>
    if pat.isPrefixOf (ch :: rest) then (ch :: rest).drop pat.length
    else ch :: dropFirstOcc pat rest

/-- JS `s.replace(pat, "")` on strings. -/
def strRemoveFirst (s pat : String) : String :=
  String.mk (dropFirstOcc pat.toList s.toList)

/-- `summarize` from `updateEntityAnnotation`: an entity carries `tag(a)`
iff some operation note mentions the plain tag; a stale auto tag is
removed (first `" tag(a)"`, then `"tag(a)"`). -/
def summarizeTag (tag : String) (e : Entity) : Entity :=
  let autoTag := tag ++ "(a)"
  let hasTag := e.operations.any fun op => strIncludes op.note tag
  if hasTag && !(strIncludes e.note tag) then
    { e with note := appendNote e.note autoTag }
  else if !hasTag && strIncludes e.note autoTag then
    { e with note := strRemoveFirst (strRemoveFirst e.note (" " ++ autoTag)) autoTag }
  else e

/-- `updateEntityAnnotation` from `part_013` (summarizes `non-trivial`,
`non-eq` and `cda-tran` over the recognized group). -/
def updateEntityAnnotations (g : Group) : Group :=
  g.map fun ke =>
    (ke.1, summarizeTag CDA_TRAN (summarizeTag NON_EQ (summarizeTag NON_TRIVIAL ke.2)))

/-! ## Extractor messages (`analyzer/typeorm.ts`, `analyzer/django.ts`)

A message carries a file path, a source range, and either an
entity-declaration content (`{type:"model", name}`) or a method-call
content (`{type:"method", name, methodType, object, objectTypes,
attributes}`). -/

/-- An attribute record of a method message (1-based start/end lines). -/
structure AttrRec where
  name : String
  startLine : Int
  startColumn : Int
  endLine : Int
  endColumn : Int
deriving DecidableEq, Repr

/-- A method-call content. -/
structure MethodMsg where
  name : String
  methodType : OpType
  object : String
  objectTypes : List String
  attributes : List AttrRec
deriving DecidableEq, Repr

/-- A message content: entity declaration or method call. -/
inductive MsgContent where
  | model (name : String)
  | method (m : MethodMsg)
deriving DecidableEq, Repr

/-- The positional envelope of a message. -/
structure MsgMeta where
  filePath : String
  fromLine : Int
  toLine : Int
  fromColumn : Int
  toColumn : Int
deriving DecidableEq, Repr

/-- A full extractor message. -/
structure Message where
  pos : MsgMeta
  content : MsgContent
deriving DecidableEq, Repr

/-! ## Regex helpers

The resolvers use a handful of fixed regular expressions.  Each is
embedded by its exact matching semantics on the strings at hand:
unanchored leftmost match with a greedy capture group.  (`.` in JS does
not match newlines; the candidate type strings produced by the extractors
contain none.  The unescaped dots of the Django patterns are embedded as
literal dots, which is what they match on the extractor's type
spellings.) -/

/-- Index of the first occurrence of `pat` as a contiguous sublist of the
second argument (JS leftmost match position). -/
def firstSubIdx (pat : List Char) : List Char → Option Nat
  | [] => if pat.isPrefixOf ([] : List Char) then some 0 else none
  | c :: rest =>
    if pat.isPrefixOf (c :: rest) then some 0
    else (firstSubIdx pat rest).map (· + 1)

/-- Index of the last occurrence of character `c` (for the backtracking of
a greedy `(.*)` followed by a closing delimiter). -/
def lastIdxOf (c : Char) : List Char → Option Nat
  | [] => none
  | x :: rest =>
    match lastIdxOf c rest with
    | some i => some (i + 1)
    | none => if x = c then some 0 else none

/-- JS `s.match(new RegExp(pre + open + "(.*)" + close))?.[1]`: the text
between the first occurrence of `pre ++ open` and the last occurrence of
`close` after it. -/
def regexCaptureBetween (pre : String) (openCh closeCh : Char) (s : String) :
    Option String :=
  let pat := pre.toList ++ [openCh]
  match firstSubIdx pat s.toList with
  | none => none
  | some i =>
    let rest := s.toList.drop (i + pat.length)
    match lastIdxOf closeCh rest with
    | none => none
    | some j => some (String.mk (rest.take j))

/-- A JS `\w` word character (`[A-Za-z0-9_]`). -/
def isWordChar (c : Char) : Bool :=
  c.isAlphanum || c = '_'

/-- JS `s.match(new RegExp("(\\w+)" + suffix + "$"))?.[1]`: if `s` ends in
`suffix`, the maximal non-empty run of word characters immediately before
that final `suffix` (leftmost match start = longest such run). -/
def wordCaptureBeforeSuffix (suffix : String) (s : String) : Option String :=
  if strEndsWith s suffix then
    let pre := (s.toList.take (s.toList.length - suffix.toList.length))
    let cap := (pre.reverse.takeWhile isWordChar).reverse
    if cap.isEmpty then none else some (String.mk cap)
  else none

/-! ## TypeORM entity resolver (`analyzer/typeorm.ts`) -/

/-- A fresh (non-custom, location-less) entity with the given name, as
created for bracket entities and unknown buckets. -/
def freshEntity (name : String) : Entity :=
  { selection := none, name := name, operations := [], note := "", isCustom := false }

/-- `collectEntities` from `typeorm.ts`: seed the four bracket entities if
the recognized group is empty, then add every declared entity, warning
(and keeping the first declaration) on duplicates. -/
def typeormCollectEntities (entities : Group) (messages : List Message) : Group :=
  let seeded :=
    if entities.isEmpty then
      mapSet (mapSet (mapSet (mapSet entities
        "[EntityManager]" (freshEntity "[EntityManager]"))
        "[QueryRunner]" (freshEntity "[QueryRunner]"))
        "[Connection]" (freshEntity "[Connection]"))
        "[DataSource]" (freshEntity "[DataSource]")
    else entities
  messages.foldl
    (fun acc msg =>
      match msg.content with
      | .method _ => acc
      | .model name =>
        if mapHas acc name then acc
        else mapSet acc name
          { selection := some
              { filePath := msg.pos.filePath, fromLine := msg.pos.fromLine,
                toLine := msg.pos.toLine, fromColumn := msg.pos.fromColumn,
                toColumn := msg.pos.toColumn },
            name := name, operations := [], note := "", isCustom := false })
    seeded

/-- The `Operation` built by `collectOperations` in `typeorm.ts` for one
method message (argument lines are normalized from 1-based, the
operation's own selection is the raw message range). -/
def typeormMkOperation (pos : MsgMeta) (content : MethodMsg) : Operation :=
  { selection := some
      { filePath := pos.filePath, fromLine := pos.fromLine, toLine := pos.toLine,
        fromColumn := pos.fromColumn, toColumn := pos.toColumn },
    name := content.object ++ "." ++ content.name,
    type := content.methodType,
    note := "",
    arguments := content.attributes.map fun attr =>
      { selection := some
          { filePath := pos.filePath, fromLine := attr.startLine - 1,
            fromColumn := attr.startColumn, toLine := attr.endLine - 1,
            toColumn := attr.endColumn },
        name := attr.name, note := "", isCustom := false },
    isCustom := false }

/-- The per-candidate rule chain of `collectOperations` in `typeorm.ts`:
fixed bracket names first, then `Repository<...>`, then
`SelectQueryBuilder<...>` (each attaching only when the extracted name is
a recognized entity), then exact entity-name match.  Returns the key of
the recognized entity to attach to.  (For the bracket rules the source
uses `entities.get(...)!`, assuming the seeded bracket entities exist.) -/
def typeormResolveOne (entities : Group) (calleeType : String) : Option String :=
  if calleeType = "EntityManager" then some "[EntityManager]"
  else if calleeType = "QueryRunner" then some "[QueryRunner]"
  else if calleeType = "Connection" then some "[Connection]"
  else if calleeType = "DataSource" then some "[DataSource]"
  else
    match regexCaptureBetween "Repository" '<' '>' calleeType with
    | some n =>
      if mapHas entities n then some n
      else typeormResolveOneTail entities calleeType
    | none => typeormResolveOneTail entities calleeType
where
  typeormResolveOneTail (entities : Group) (calleeType : String) : Option String :=
    match regexCaptureBetween "SelectQueryBuilder" '<' '>' calleeType with
    | some n =>
      if mapHas entities n then some n
      else if mapHas entities calleeType then some calleeType else none
    | none => if mapHas entities calleeType then some calleeType else none

/-- The candidate loop: try each candidate callee type in order, stopping
at the first rule hit. -/
def typeormResolveCallees (entities : Group) : List String → Option String
  | [] => none
  | c :: rest =>
    match typeormResolveOne entities c with
    | some k => some k
    | none => typeormResolveCallees entities rest

/-- One iteration of `collectOperations` in `typeorm.ts` for a method
message: attach the built operation to the resolved recognized entity, or
get-or-create the Unknown bucket keyed by the FIRST candidate type (a
fresh entity with no location) and append the operation there. -/
def typeormProcessMethod (st : Group × Group) (pos : MsgMeta)
    (content : MethodMsg) : Group × Group :=
  let operation := typeormMkOperation pos content
  match typeormResolveCallees st.1 content.objectTypes with
  | some k => (pushOpAt st.1 k operation, st.2)
  | none =>
    let calleeType := content.objectTypes.headD ""
    let unknowns :=
      if mapHas st.2 calleeType then st.2
      else mapSet st.2 calleeType (freshEntity calleeType)
    (st.1, pushOpAt unknowns calleeType operation)

/-- `collectOperations` from `typeorm.ts` over a message list. -/
def typeormCollectOperations (st : Group × Group) (messages : List Message) :
    Group × Group :=
  messages.foldl
    (fun st msg =>
      match msg.content with
      | .model _ => st
      | .method content => typeormProcessMethod st msg.pos content)
    st

/-! ## Django entity resolver (`analyzer/django.ts`) -/

/-- The last path segment of an entity name
(`name.substring(name.lastIndexOf(".") + 1)`). -/
def baseOf (name : String) : String :=
  (strSplitOn name ".").getLastD name

/-- One step of `getBaseEntityNames`: skip bracket entities; otherwise map
the base name to the full name, or to `null` when the base name was
already claimed. -/
def baseNamesStep (acc : List (String × Option String)) (ke : String × Entity) :
    List (String × Option String) :=
  let name := ke.1
  if strStartsWith name "[" then acc
  else
    let baseName := baseOf name
    match mapGet acc baseName with
    | some _ => mapSet acc baseName none
    | none => mapSet acc baseName (some name)

/-- `getBaseEntityNames` from `django.ts`: map from the last path segment
of every non-bracket recognized entity name to that full name, with a
base name shared by more than one entity mapped to `null` (ambiguous). -/
def getBaseEntityNames (entities : Group) : List (String × Option String) :=
  entities.foldl baseNamesStep []

/-- The `Operation` built by `collectOperations` in `django.ts` (all line
numbers are normalized from 1-based; `filePath` is made workspace-relative
by the source, embedded here as the given path). -/
def djangoMkOperation (pos : MsgMeta) (content : MethodMsg) : Operation :=
  { selection := some
      { filePath := pos.filePath, fromLine := pos.fromLine - 1,
        toLine := pos.toLine - 1, fromColumn := pos.fromColumn,
        toColumn := pos.toColumn },
    name := content.object ++ "." ++ content.name,
    type := content.methodType,
    note := "",
    arguments := content.attributes.map fun attr =>
      { selection := some
          { filePath := pos.filePath, fromLine := attr.startLine - 1,
            toLine := attr.endLine - 1, fromColumn := attr.startColumn,
            toColumn := attr.endColumn },
        name := attr.name, note := "", isCustom := false },
    isCustom := false }

/-- The inner loop of the `_QuerySet[Name, ...]` rule: try each extracted
name in order, attaching to the first that is a recognized entity. -/
def firstRecognized (entities : Group) : List String → Option String
  | [] => none
  | n :: rest =>
    if mapHas entities n then some n else firstRecognized entities rest

/-- `content.object` up to its first `"."` (the receiver's first
dot-segment), used by the `[Any, Any]` convention fallback. -/
def firstDotSegment (s : String) : String :=
  match (strSplitOn s ".").head? with
  | some h => h
  | none => s

/-- The per-candidate rule chain of `collectOperations` in `django.ts`:
1. the fixed `django.db.transaction.atomic` bracket entity;
2. `django.db.models.manager.Manager[Name]` with `Name` recognized;
3. `django.db.models.manager.BaseManager[Name]` with `Name` recognized;
4. `django.db.models.query._QuerySet[Name, ...]`: the captured list is
   split on `", "` and each name tried in order;
5. unique-base-name match for `FooManager` candidates (falls through when
   the base name is ambiguous, i.e. maps to `null`);
6. convention fallback for the untyped spellings
   `django.db.models.query._QuerySet[Any, Any]` and
   `django.db.models.manager.Manager[Any]`, using the receiver's first
   dot-segment as base name;
7. `FilterSet` receivers, using the `(\w+)Filter$` capture of the call
   name as base name;
8. exact entity-name match. -/
def djangoResolveOne (entities : Group) (baseNames : List (String × Option String))
    (content : MethodMsg) (calleeType : String) : Option String :=
  if calleeType = "django.db.transaction.atomic" then
    some "[django.db.transaction.atomic]"
  else
    match (regexCaptureBetween "django.db.models.manager.Manager" '[' ']'
        calleeType).bind fun n => if mapHas entities n then some n else none with
    | some k => some k
    | none =>
    match (regexCaptureBetween "django.db.models.manager.BaseManager" '[' ']'
        calleeType).bind fun n => if mapHas entities n then some n else none with
    | some k => some k
    | none =>
    match (regexCaptureBetween "django.db.models.query._QuerySet" '[' ']'
        calleeType).bind fun ns =>
        firstRecognized entities (strSplitOn ns ", ") with
    | some k => some k
    | none =>
    match (wordCaptureBeforeSuffix "Manager" calleeType).bind fun b =>
        match mapGet baseNames b with
        | some (some full) => some full
        | _ => none with
    | some k => some k
    | none =>
    match (if calleeType = "django.db.models.query._QuerySet[Any, Any]"
            || calleeType = "django.db.models.manager.Manager[Any]" then
          match mapGet baseNames (firstDotSegment content.object) with
          | some (some full) => some full
          | _ => none
        else none) with
    | some k => some k
    | none =>
    match (if calleeType = "FilterSet" then
          (wordCaptureBeforeSuffix "Filter" content.name).bind fun b =>
            match mapGet baseNames b with
            | some (some full) => some full
            | _ => none
        else none) with
    | some k => some k
    | none => if mapHas entities calleeType then some calleeType else none

/-- The candidate loop of `django.ts`. -/
def djangoResolveCallees (entities : Group)
    (baseNames : List (String × Option String)) (content : MethodMsg) :
    List String → Option String
  | [] => none
  | c :: rest =>
    match djangoResolveOne entities baseNames content c with
    | some k => some k
    | none => djangoResolveCallees entities baseNames content rest

/-- One iteration of `collectOperations` in `django.ts` for a method
message (same fallback shape as TypeORM: unknown bucket keyed by the
first candidate type). -/
def djangoProcessMethod (st : Group × Group)
    (baseNames : List (String × Option String)) (pos : MsgMeta)
    (content : MethodMsg) : Group × Group :=
  let operation := djangoMkOperation pos content
  match djangoResolveCallees st.1 baseNames content content.objectTypes with
  | some k => (pushOpAt st.1 k operation, st.2)
  | none =>
    let calleeType := content.objectTypes.headD ""
    let unknowns :=
      if mapHas st.2 calleeType then st.2
      else mapSet st.2 calleeType (freshEntity calleeType)
    (st.1, pushOpAt unknowns calleeType operation)

/-- `collectOperations` from `django.ts` over a message list (the base-name
map is computed once per pass, before the loop). -/
def djangoCollectOperations (st : Group × Group) (messages : List Message) :
    Group × Group :=
  let baseNames := getBaseEntityNames st.1
  messages.foldl
    (fun st msg =>
      match msg.content with
      | .model _ => st
      | .method content => djangoProcessMethod st baseNames msg.pos content)
    st

/-! ## Persistence codec (`model.ts` `replacer`/`reviver`,
`saveToStorage`/`loadFromStorage`)

`saveToStorage` writes `JSON.stringify(this, replacer)` where the
serialized fields of the singleton are the optional repository and the
two-level `group` map (the `refreshFn` function and an `undefined`
`resultPath` are dropped by `JSON.stringify`; `resultPath` is restored
separately by `loadFromStorage`).  The replacer turns every `Map` into
`{dataType:"Map", value:[[k,v],...]}` (and a `Set` into
`{dataType:"Set", value:[...]}`, but no `Set` occurs in the persisted
model).  The reviver restores tagged objects bottom-up.  The codec is
embedded at the level of the JSON document tree (string escaping in the
textual layer is a bijection and is not modeled). -/

/-- A JSON document tree. -/
inductive Json where
  | null
  | str (s : String)
  | num (n : Int)
  | bool (b : Bool)
  | arr (elems : List Json)
  | obj (fields : List (String × Json))

/-- `Repository` from `model.ts`. -/
structure Repository where
  url : String
  hash : String
deriving DecidableEq, Repr

/-- The persisted fields of the `AnalyzeResult` singleton: the optional
repository metadata and the two keyed groups (the `group` map has exactly
the keys `"Recognized"` and `"Unknown"`). -/
structure StoredResult where
  repository : Option Repository
  recognized : Group
  unknown : Group
deriving DecidableEq, Repr

/-- The strings of the `type` union of `Operation`. -/
def encodeOpType : OpType → String
  | .read => "read"
  | .write => "write"
  | .other => "other"
  | .transaction => "transaction"

/-- Inverse of `encodeOpType`. -/
def decodeOpType (s : String) : Option OpType :=
  if s = "read" then some .read
  else if s = "write" then some .write
  else if s = "other" then some .other
  else if s = "transaction" then some .transaction
  else none

/-- Structural serialization of a `Selection`. -/
def encodeSelection (s : Selection) : Json :=
  .obj [("filePath", .str s.filePath), ("fromLine", .num s.fromLine),
        ("fromColumn", .num s.fromColumn), ("toLine", .num s.toLine),
        ("toColumn", .num s.toColumn)]

/-- `JSON.stringify` drops `undefined` fields: an absent selection
contributes no field. -/
def selectionField (s : Option Selection) : List (String × Json) :=
  match s with
  | none => []
  | some sel => [("selection", encodeSelection sel)]

/-- Structural serialization of an `Argument`. -/
def encodeArgument (a : Argument) : Json :=
  .obj (selectionField a.selection ++
    [("name", .str a.name), ("note", .str a.note), ("isCustom", .bool a.isCustom)])

/-- Structural serialization of an `Operation`. -/
def encodeOperation (op : Operation) : Json :=
  .obj (selectionField op.selection ++
    [("name", .str op.name),
     ("arguments", .arr (op.arguments.map encodeArgument)),
     ("type", .str (encodeOpType op.type)),
     ("note", .str op.note), ("isCustom", .bool op.isCustom)])

/-- Structural serialization of an `Entity`. -/
def encodeEntity (e : Entity) : Json :=
  .obj (selectionField e.selection ++
    [("name", .str e.name),
     ("operations", .arr (e.operations.map encodeOperation)),
     ("note", .str e.note), ("isCustom", .bool e.isCustom)])

/-- The `replacer` tagging of a `Map`: `{dataType:"Map", value:[[k,v]...]}`. -/
def encodeMapJson {α : Type} (f : α → Json) (m : List (String × α)) : Json :=
  .obj [("dataType", .str "Map"),
        ("value", .arr (m.map fun kv => .arr [.str kv.1, f kv.2]))]

/-- The serialized form of the persisted model. -/
def encodeStored (r : StoredResult) : Json :=
  .obj
    ((match r.repository with
      | none => []
      | some rep =>
        [("repository", .obj [("url", .str rep.url), ("hash", .str rep.hash)])]) ++
     [("group", encodeMapJson (encodeMapJson encodeEntity)
        [("Recognized", r.recognized), ("Unknown", r.unknown)])])

/-- Field lookup in a JSON object. -/
def jGet (fields : List (String × Json)) (k : String) : Option Json :=
  mapGet fields k

/-- Decode a string leaf. -/
def decodeStr : Json → Option String
  | .str s => some s
  | _ => none

/-- Decode a number leaf. -/
def decodeNum : Json → Option Int
  | .num n => some n
  | _ => none

/-- Decode a boolean leaf. -/
def decodeBool : Json → Option Bool
  | .bool b => some b
  | _ => none

/-- Decode every element of a JSON list. -/
def decodeListWith {α : Type} (f : Json → Option α) : List Json → Option (List α)
  | [] => some []
  | j :: rest =>
    match f j with
    | none => none
    | some x => (decodeListWith f rest).map (x :: ·)

/-- Decode a `Selection`. -/
def decodeSelection (j : Json) : Option Selection :=
  match j with
  | .obj fs =>
    match (jGet fs "filePath").bind decodeStr, (jGet fs "fromLine").bind decodeNum,
        (jGet fs "fromColumn").bind decodeNum, (jGet fs "toLine").bind decodeNum,
        (jGet fs "toColumn").bind decodeNum with
    | some fp, some fl, some fc, some tl, some tc =>
      some { filePath := fp, fromLine := fl, fromColumn := fc, toLine := tl, toColumn := tc }
    | _, _, _, _, _ => none
  | _ => none

/-- Decode an optional selection field (absent field = `undefined`). -/
def decodeSelectionField (fs : List (String × Json)) : Option (Option Selection) :=
  match jGet fs "selection" with
  | none => some none
  | some js => (decodeSelection js).map some

/-- Decode an `Argument`. -/
def decodeArgument (j : Json) : Option Argument :=
  match j with
  | .obj fs =>
    match decodeSelectionField fs, (jGet fs "name").bind decodeStr,
        (jGet fs "note").bind decodeStr, (jGet fs "isCustom").bind decodeBool with
    | some sel, some nm, some nt, some ic =>
      some { selection := sel, name := nm, note := nt, isCustom := ic }
    | _, _, _, _ => none
  | _ => none

/-- Decode an `Operation`. -/
def decodeOperation (j : Json) : Option Operation :=
  match j with
  | .obj fs =>
    match decodeSelectionField fs, (jGet fs "name").bind decodeStr,
        (match jGet fs "arguments" with
         | some (.arr items) => decodeListWith decodeArgument items
         | _ => none),
        (jGet fs "type").bind decodeStr,
        (jGet fs "note").bind decodeStr, (jGet fs "isCustom").bind decodeBool with
    | some sel, some nm, some args, some ty, some nt, some ic =>
      (decodeOpType ty).map fun t =>
        { selection := sel, name := nm, arguments := args, type := t,
          note := nt, isCustom := ic }
    | _, _, _, _, _, _ => none
  | _ => none

/-- Decode an `Entity`. -/
def decodeEntity (j : Json) : Option Entity :=
  match j with
  | .obj fs =>
    match decodeSelectionField fs, (jGet fs "name").bind decodeStr,
        (match jGet fs "operations" with
         | some (.arr items) => decodeListWith decodeOperation items
         | _ => none),
        (jGet fs "note").bind decodeStr, (jGet fs "isCustom").bind decodeBool with
    | some sel, some nm, some ops, some nt, some ic =>
      some { selection := sel, name := nm, operations := ops, note := nt, isCustom := ic }
    | _, _, _, _, _ => none
  | _ => none

/-- The `reviver` restoring a tagged `Map` (an object with
`dataType:"Map"` and a `value` array of `[key, value]` pairs). -/
def decodeMapJson {α : Type} (f : Json → Option α) (j : Json) :
    Option (List (String × α)) :=
  match j with
  | .obj fs =>
    match jGet fs "dataType", jGet fs "value" with
    | some (.str tag), some (.arr items) =>
      if tag = "Map" then
        decodeListWith
          (fun it =>
            match it with
            | .arr [.str k, v] => (f v).map fun x => (k, x)
            | _ => none)
          items
      else none
    | _, _ => none
  | _ => none

/-- Decode the persisted model. -/
def decodeStored (j : Json) : Option StoredResult :=
  match j with
  | .obj fs =>
    let repository :=
      match jGet fs "repository" with
      | none => some none
      | some (.obj rfs) =>
        match (jGet rfs "url").bind decodeStr, (jGet rfs "hash").bind decodeStr with
        | some url, some hash => some (some { url := url, hash := hash })
        | _, _ => none
      | some _ => none
    match repository, (jGet fs "group").bind (decodeMapJson (decodeMapJson decodeEntity)) with
    | some rep, some groups =>
      match mapGet groups "Recognized", mapGet groups "Unknown" with
      | some rec, some unk =>
        some { repository := rep, recognized := rec, unknown := unk }
      | _, _ => none
    | _, _ => none
  | _ => none

/-! ## Analysis driver (`runAnalyzer` in `extension.ts`, `analyze` in
`analyzer/typeorm.ts`)

`analyze` spawns the external extractor and, in the `close` handler,
merges (`collectEntities` then `collectOperations`) only when the exit
code is `0`, resolving `true`; on a non-zero exit it resolves `false`
without touching the model.  `runAnalyzer` clears the model, tries
`loadFromStorage`, and only when no stored result exists runs the
analyzer, showing an error message when it resolves `false` (on success it
would additionally run the analyzer's supported auto-annotate tags — an
empty list for TypeORM — and save). -/

/-- The `close`-handler of `TypeORMAnalyzer.analyze`: merge the extractor
output into the model only on exit code `0`; report success/failure. -/
def typeormAnalyzeClose (code : Int) (st : Group × Group)
    (messages : List Message) : Bool × (Group × Group) :=
  if code = 0 then
    let entities := typeormCollectEntities st.1 messages
    (true, typeormCollectOperations (entities, st.2) messages)
  else (false, st)

/-- `runAnalyzer` from `extension.ts`, as a function of the in-memory
model `prior`, the persisted result (if any), and the extractor outcome:
the progress callback first calls `analyzeResult.clear()`, then
`loadFromStorage()` (which replaces the model wholesale on success), and
only if nothing was loaded runs the analyzer.  Returns the final model and
`some ok` when the analyzer ran (with `ok = false` reported as an error
message to the user), `none` when a stored result was loaded instead. -/
def runAnalyzerModel (prior : Group × Group) (stored : Option (Group × Group))
    (code : Int) (messages : List Message) : (Group × Group) × Option Bool :=
  let cleared : Group × Group := ([], [])
  match stored with
  | some s => (s, none)
  | none =>
    let r := typeormAnalyzeClose code cleared messages
    (r.2, some r.1)

/-! ## Specification-side definitions for the best-path property

`nodePaths` enumerates all root-to-leaf paths of a forest node (in the
leaf-first key-list representation used by `findBestPath`) together with
their total operation counts; `listMax` is the maximum of a list of
naturals.  These are used to state that `findBestPath` returns the
maximal total operation count over root-to-leaf paths. -/

def nodePaths (w : String → Nat) : GNode → List (List String × Nat)
  | .mk cda [] =>
    if cda.length > 0 then [([cdaKeyOf cda], w (cdaKeyOf cda))] else [([], 0)]
  | .mk cda (c0 :: rest) =>
    let selfPath : List String := if cda.length > 0 then [cdaKeyOf cda] else []
    let selfW : Nat := if cda.length > 0 then w (cdaKeyOf cda) else 0
    (((c0 :: rest).attach.map fun c => nodePaths w c.1).flatten).map
      fun pv => (pv.1 ++ selfPath, pv.2 + selfW)
decreasing_by
  have hm := List.sizeOf_lt_of_mem c.2
  simp only [GNode.mk.sizeOf_spec]
  omega

/-- Maximum of a list of naturals (`0` for the empty list). -/
def listMax (l : List Nat) : Nat := l.foldr max 0

/-- Total number of operations stored in a group. -/
def totalOps (g : Group) : Nat :=
  (g.map fun ke => ke.2.operations.length).sum

/-- The "non-trivial" lookup set as the spec sentence words it: the
non-equality set minus the ordering comparators `gt, gte, lt, lte` (to be
compared against the sets the code actually uses). -/
def NON_TRIVIAL_LOOKUPS_CLAIMED : List String :=
  NON_EQ_LOOKUPS.filter fun l => l ∉ (["gt", "gte", "lt", "lte"] : List String)

/-! ## Concrete fixtures -/

/-- A location-less extractor-style argument. -/
def fixArg (nm : String) : Argument :=
  { selection := none, name := nm, note := "", isCustom := false }

/-- A location-less read operation with the given argument names. -/
def fixOp (nm : String) (args : List String) : Operation :=
  { selection := none, name := nm, arguments := args.map fixArg,
    type := .read, note := "", isCustom := false }

/-- `fixOp` with a preset note. -/
def fixOpN (nm : String) (args : List String) (note : String) : Operation :=
  { fixOp nm args with note := note }

/-- A location-less entity with the given operations. -/
def fixEntity (nm : String) (ops : List Operation) : Entity :=
  { selection := none, name := nm, operations := ops, note := "", isCustom := false }

/-- The entity of the CDA-transitivity example: column sets
`{a,b}` (×3), `{a}` (×2), `{c}` (×1). -/
def cdaExampleEntity : Entity :=
  fixEntity "E"
    [fixOp "o1" ["a", "b"], fixOp "o2" ["a", "b"], fixOp "o3" ["a", "b"],
     fixOp "o4" ["a"], fixOp "o5" ["a"], fixOp "o6" ["c"]]

/-- The recognized group of the CDA-transitivity example. -/
def cdaExampleGroup : Group := [("E", cdaExampleEntity)]

/-- The expected outcome: the three `{a,b}` operations tagged
`cda[2/2](a)`, the two `{a}` operations tagged `cda[1/2](a)`, the `{c}`
operation tagged with the transitivity auto-tag, and the entity note
carrying the best-path signature. -/
def cdaExampleTagged : Group :=
  [("E",
    { cdaExampleEntity with
      note := "cda[a,b](a)",
      operations :=
        [fixOpN "o1" ["a", "b"] "cda[2/2](a)", fixOpN "o2" ["a", "b"] "cda[2/2](a)",
         fixOpN "o3" ["a", "b"] "cda[2/2](a)", fixOpN "o4" ["a"] "cda[1/2](a)",
         fixOpN "o5" ["a"] "cda[1/2](a)", fixOpN "o6" ["c"] "cda-tran(a)"] })]

/-- A one-operation group for the idempotence counterexample. -/
def cdaIdemGroup : Group := [("E", fixEntity "E" [fixOp "o" ["a"]])]

/-- The entity whose operation filters with the `range` lookup. -/
def rangeGroup : Group := [("E", fixEntity "E" [fixOp "q.filter" ["x__range"]])]

/-- A non-empty prior model for the driver counterexample. -/
def priorModel : Group × Group :=
  ([("X", fixEntity "X" [fixOp "x.find" []])], [])

/-- The TypeORM recognized group with seeded brackets and a declared
entity `Foo`. -/
def typeormExampleEntities : Group :=
  [("[EntityManager]", freshEntity "[EntityManager]"),
   ("[QueryRunner]", freshEntity "[QueryRunner]"),
   ("[Connection]", freshEntity "[Connection]"),
   ("[DataSource]", freshEntity "[DataSource]"),
   ("Foo", freshEntity "Foo")]

/-- A method message whose candidate types are
`["EntityManager", "Repository<Foo>"]`. -/
def emRepoFooMsg : MethodMsg :=
  { name := "find", methodType := .read, object := "manager",
    objectTypes := ["EntityManager", "Repository<Foo>"], attributes := [] }

/-- A message envelope fixture. -/
def fixPos : MsgMeta :=
  { filePath := "src/a.ts", fromLine := 3, toLine := 3, fromColumn := 2, toColumn := 10 }

/-- The Django recognized group with the transaction bracket and two
entities sharing the base name `Foo`. -/
def djangoAmbiguousEntities : Group :=
  [("[django.db.transaction.atomic]", freshEntity "[django.db.transaction.atomic]"),
   ("app.Foo", freshEntity "app.Foo"),
   ("lib.Foo", freshEntity "lib.Foo")]

/-- A method message whose only candidate type is `FooManager`. -/
def fooManagerMsg : MethodMsg :=
  { name := "filter", methodType := .read, object := "mgr",
    objectTypes := ["FooManager"], attributes := [] }

/-- A stored model exercising the round-trip claim: one entity per group,
one custom and one non-custom operation, notes with `tag(a)` tokens. -/
def storedExample : StoredResult :=
  { repository := some { url := "https://example.com/r.git", hash := "abc123" },
    recognized :=
      [("app.Foo",
        { selection := some
            { filePath := "m.py", fromLine := 2, fromColumn := 0, toLine := 9, toColumn := 1 },
          name := "app.Foo",
          operations :=
            [{ selection := some
                 { filePath := "v.py", fromLine := 11, fromColumn := 4, toLine := 11, toColumn := 30 },
               name := "Foo.objects.filter",
               arguments := [{ selection := none, name := "age__gte", note := "", isCustom := false }],
               type := .read, note := "non-eq(a) cda[1/1](a)", isCustom := false },
             { selection := none, name := "custom.op", arguments := [],
               type := .write, note := "", isCustom := true }],
          note := "non-eq(a)", isCustom := false })],
    unknown :=
      [("Bar", { selection := none, name := "Bar",
                 operations := [fixOp "bar.save" []], note := "", isCustom := false })] }

/-- Two selections differing only in line numbers. -/
def selA : Selection :=
  { filePath := "a.ts", fromLine := 1, fromColumn := 0, toLine := 1, toColumn := 5 }

/-- See `selA`. -/
def selB : Selection :=
  { filePath := "a.ts", fromLine := 7, fromColumn := 0, toLine := 7, toColumn := 5 }

/-- See `selA`. -/
def selC : Selection :=
  { filePath := "a.ts", fromLine := 20, fromColumn := 0, toLine := 20, toColumn := 5 }

/-- The locator structurally matching an operation named `nm` at `s`. -/
def locatorFor (nm : String) (s : Selection) : MovedItemLocator :=
  { name := nm, parentName := "A", filePath := some s.filePath,
    fromLine := some s.fromLine, toLine := some s.toLine,
    fromColumn := some s.fromColumn, toColumn := some s.toColumn }

/-- A locator with all five location fields `undefined`. -/
def locatorNoLoc (nm : String) : MovedItemLocator :=
  { name := nm, parentName := "A", filePath := none,
    fromLine := none, toLine := none, fromColumn := none, toColumn := none }

/-- An operation named `nm` located at `s`. -/
def opAt (nm : String) (s : Selection) : Operation :=
  { selection := some s, name := nm, arguments := [], type := .read,
    note := "", isCustom := false }

/-- Source group for the move example: entity `A` holds two operations
sharing the name `op` at different locations, plus a third one; entity
`B` is empty. -/
def moveExampleGroup : Group :=
  [("A", fixEntity "A" [opAt "op" selA, opAt "op" selB, opAt "other" selC]),
   ("B", fixEntity "B" [])]

/-! # Theorems -/

/-! ## String helper lemmas -/

theorem strIncludes_append_right {s t pat : String}
    (h : strIncludes t pat = true) : strIncludes (s ++ t) pat = true := by
  simp only [strIncludes, decide_eq_true_eq] at *
  exact h.trans (List.suffix_append s.toList t.toList).isInfix

theorem strIncludes_appendNote_right {note more pat : String}
    (h : strIncludes more pat = true) :
    strIncludes (appendNote note more) pat = true := by
  unfold appendNote
  split
  · exact h
  · rw [show note ++ " " ++ more = (note ++ " ") ++ more by simp]
    exact strIncludes_append_right h

theorem strIncludes_refl (s : String) : strIncludes s s = true := by
  simp [strIncludes]

theorem strIncludes_of_leading {s pat rest : String} (h : s = pat ++ rest) :
    strIncludes s pat = true := by
  subst h
  simp only [strIncludes, decide_eq_true_eq]
  exact (List.prefix_append pat.toList rest.toList).isInfix

theorem appendNote_ne {note more : String} (h : more ≠ "") :
    appendNote note more ≠ note := by
  unfold appendNote
  split
  · intro heq
    exact h (heq.trans (by assumption))
  · intro heq
    have hlen := congrArg String.length heq
    simp only [String.length_append] at hlen
    have hz : more.length = 0 := by omega
    apply h
    cases more with
    | mk data =>
      simp only [String.length, List.length_eq_zero] at hz
      simp [hz]

/-! ## Claim C10: structural matching of location-less items -/

/-- C10: in `moveOperations` and `moveArguments`, the structural match
compares the optional selection field-by-field with the locator, so an
item with no selection matches an all-`undefined` locator by name alone,
and an item that has a selection never matches such a locator. -/
theorem locator_all_undefined_matches_iff_no_selection :
    (∀ (op : Operation) (nm pn : String),
      opMatchesLocator op
        { name := nm, parentName := pn, filePath := none, fromLine := none,
          toLine := none, fromColumn := none, toColumn := none } = true
        ↔ op.name = nm ∧ op.selection = none)
    ∧ (∀ (a : Argument) (nm pn : String),
      argMatchesLocator a
        { name := nm, parentName := pn, filePath := none, fromLine := none,
          toLine := none, fromColumn := none, toColumn := none } = true
        ↔ a.name = nm ∧ a.selection = none) := by
  constructor
  · intro op nm pn
    cases h : op.selection <;>
      simp [opMatchesLocator, h]
  · intro a nm pn
    cases h : a.selection <;>
      simp [argMatchesLocator, h]

/-! ## Claim C7: serialization round-trip -/

theorem decodeSelection_encode (s : Selection) :
    decodeSelection (encodeSelection s) = some s := rfl

theorem decodeArgument_encode (a : Argument) :
    decodeArgument (encodeArgument a) = some a := by
  cases a with
  | mk sel nm nt ic => cases sel <;> rfl

theorem decodeListWith_encode {α : Type} {f : α → Json} {g : Json → Option α}
    (h : ∀ x, g (f x) = some x) :
    ∀ l : List α, decodeListWith g (l.map f) = some l := by
  intro l
  induction l with
  | nil => rfl
  | cons x xs ih => simp [decodeListWith, h, ih]

theorem decodeOperation_encode (op : Operation) :
    decodeOperation (encodeOperation op) = some op := by
  cases op with
  | mk sel nm args ty nt ic =>
    cases sel <;> cases ty <;>
      simp [encodeOperation, decodeOperation, decodeSelectionField,
        selectionField, jGet, mapGet, decodeStr, decodeBool, decodeNum,
        encodeOpType, decodeOpType, decodeSelection_encode,
        decodeListWith_encode decodeArgument_encode]

theorem decodeEntity_encode (e : Entity) :
    decodeEntity (encodeEntity e) = some e := by
  cases e with
  | mk sel nm ops nt ic =>
    cases sel <;>
      simp [encodeEntity, decodeEntity, decodeSelectionField,
        selectionField, jGet, mapGet, decodeStr, decodeBool,
        decodeSelection_encode, decodeListWith_encode decodeOperation_encode]

theorem decodeMapJson_encode {α : Type} {f : α → Json} {g : Json → Option α}
    (h : ∀ x, g (f x) = some x) (m : List (String × α)) :
    decodeMapJson g (encodeMapJson f m) = some m := by
  have hlist : ∀ m : List (String × α),
      decodeListWith
        (fun it =>
          match it with
          | Json.arr [Json.str k, v] => (g v).map fun x => (k, x)
          | _ => none)
        (m.map fun kv => Json.arr [.str kv.1, f kv.2]) = some m := by
    intro m
    induction m with
    | nil => rfl
    | cons kv rest ih =>
      cases kv with
      | mk k v => simp [decodeListWith, h, ih]
  unfold encodeMapJson decodeMapJson
  simp [jGet, mapGet, hlist]

/-- C7: serializing a classified model (with at least one entity in each
group, one custom and one non-custom operation, and notes containing
`tag(a)` tokens) through the `replacer` and deserializing through the
`reviver` restores a structurally identical model: the same group keys,
the same keyed-map membership and lookup behavior, and the same field
values at every nesting level. -/
theorem serialize_roundTrip (r : StoredResult)
    (hrec : r.recognized ≠ []) (hunk : r.unknown ≠ [])
    (hcustom : ∃ ke ∈ r.recognized ++ r.unknown,
      ∃ op ∈ ke.2.operations, op.isCustom = true)
    (hplain : ∃ ke ∈ r.recognized ++ r.unknown,
      ∃ op ∈ ke.2.operations, op.isCustom = false)
    (htagged : ∃ ke ∈ r.recognized ++ r.unknown,
      ∃ op ∈ ke.2.operations, strIncludes op.note "(a)" = true) :
    decodeStored (encodeStored r) = some r := by
  cases r with
  | mk rep rec unk =>
    cases rep <;>
      simp [encodeStored, decodeStored, jGet, mapGet, decodeStr,
        decodeMapJson_encode (decodeMapJson_encode decodeEntity_encode)]

/-- Witness for C7 at a concrete model of the claimed shape. -/
theorem serialize_roundTrip_witness :
    decodeStored (encodeStored storedExample) = some storedExample :=
  serialize_roundTrip storedExample (by decide) (by decide)
    (by decide) (by decide) (by decide)

/-! ## Claim C9: extractor failure -/

/-- C9 counterexample: with a non-empty in-memory model, no persisted
result, and extractor exit code `1`, the model after the run is the
cleared empty model, not the pre-run model — `runAnalyzer` calls
`analyzeResult.clear()` before invoking the analyzer, so a failed run does
not leave the model "exactly as it was before the run started". -/
theorem runAnalyzer_failure_clears_counterexample :
    (runAnalyzerModel priorModel none 1 []).1 ≠ priorModel
      ∧ (runAnalyzerModel priorModel none 1 []).1 = (([], []) : Group × Group)
      ∧ (runAnalyzerModel priorModel none 1 []).2 = some false := by
  refine ⟨?_, by decide, by decide⟩
  decide

/-- C9 amended: on a non-zero extractor exit code the `analyze` step
reports failure and performs no merge, leaving its input model untouched
(results are merged only after a successful exit); at the driver level,
however, the model after a failed run is the cleared empty model (or the
storage-loaded one), because `runAnalyzer` clears the model at the start
of the run — not necessarily the model from before the run. -/
theorem analyze_failure_no_merge (code : Int) (st : Group × Group)
    (messages : List Message) (h : code ≠ 0) :
    typeormAnalyzeClose code st messages = (false, st)
      ∧ (∀ prior : Group × Group,
          runAnalyzerModel prior none code messages = ((([], []) : Group × Group), some false)) := by
  constructor
  · simp [typeormAnalyzeClose, h]
  · intro prior
    simp [runAnalyzerModel, typeormAnalyzeClose, h]

/-- Witness for C9's amended theorem at exit code `1`. -/
theorem analyze_failure_no_merge_witness :
    typeormAnalyzeClose 1 priorModel [] = (false, priorModel)
      ∧ (∀ prior : Group × Group,
          runAnalyzerModel prior none 1 [] = ((([], []) : Group × Group), some false)) :=
  analyze_failure_no_merge 1 priorModel [] (by decide)

/-! ## Claim C6: non-eq and non-trivial lookup sets -/

/-- C6 counterexample: `range` belongs to the claimed non-trivial set (the
non-equality set minus the ordering comparators), and the non-eq rule does
tag an operation filtering with `x__range`, but the non-trivial rule of
`django.ts` — and the shared `autoAnnotate.ts` variant — leaves that
operation untouched: `range` is not in the code's non-trivial sets. -/
theorem nonTrivial_range_counterexample :
    lookupSuffix "x__range" ∈ NON_TRIVIAL_LOOKUPS_CLAIMED
      ∧ lookupSuffix "x__range" ∉ NON_TRIVIAL_LOOKUPS_DJANGO
      ∧ lookupSuffix "x__range" ∉ NON_TRIVIAL_LOOKUPS_SHARED
      ∧ autoAnnotateNonEqNonTrivial NON_TRIVIAL rangeGroup = rangeGroup
      ∧ autoannotateNonEqNonTrivialShared NON_TRIVIAL rangeGroup = rangeGroup
      ∧ autoAnnotateNonEqNonTrivial NON_EQ rangeGroup ≠ rangeGroup := by
  refine ⟨by decide, by decide, by decide, by decide, by decide, ?_⟩
  decide

theorem annotateNote_changes_iff {tag note : String} {cond : Bool}
    (hfresh : strIncludes note tag = false) (htag : tag ++ "(a)" ≠ "") :
    annotateNote tag cond note ≠ note ↔ cond = true := by
  unfold annotateNote
  rw [hfresh]
  cases cond with
  | false => simp
  | true => simp [appendNote_ne htag]

theorem opHasLookupIn_iff (lookups : List String) (op : Operation) :
    opHasLookupIn lookups op = true
      ↔ ∃ a ∈ op.arguments, lookupSuffix a.name ∈ lookups := by
  simp [opHasLookupIn, List.any_eq_true]

/-- C6 amended: the non-eq rule tags a (fresh-noted) operation iff some
argument's lookup suffix is in the 13-element non-equality set; the
non-trivial rule tags it iff some lookup suffix is in the non-equality set
minus the ordering comparators `gt, gte, lt, lte` AND minus `range` (the
string-pattern lookups only) — `django.ts`'s set; the shared
`autoAnnotate.ts` variant additionally includes `iexact`. -/
theorem nonEq_nonTrivial_sets_amended :
    (NON_TRIVIAL_LOOKUPS_DJANGO =
      NON_EQ_LOOKUPS.filter fun l => l ∉ (["gt", "gte", "lt", "lte", "range"] : List String))
    ∧ NON_TRIVIAL_LOOKUPS_SHARED = "iexact" :: NON_TRIVIAL_LOOKUPS_DJANGO
    ∧ (∀ op : Operation, strIncludes op.note NON_EQ = false →
        (annotateNote NON_EQ (opHasLookupIn NON_EQ_LOOKUPS op) op.note ≠ op.note
          ↔ ∃ a ∈ op.arguments, lookupSuffix a.name ∈ NON_EQ_LOOKUPS))
    ∧ (∀ op : Operation, strIncludes op.note NON_TRIVIAL = false →
        (annotateNote NON_TRIVIAL (opHasLookupIn NON_TRIVIAL_LOOKUPS_DJANGO op) op.note ≠ op.note
          ↔ ∃ a ∈ op.arguments, lookupSuffix a.name ∈ NON_TRIVIAL_LOOKUPS_DJANGO)) := by
  refine ⟨by decide, by decide, ?_, ?_⟩
  · intro op hfresh
    rw [annotateNote_changes_iff hfresh (by decide)]
    exact opHasLookupIn_iff _ op
  · intro op hfresh
    rw [annotateNote_changes_iff hfresh (by decide)]
    exact opHasLookupIn_iff _ op

/-- Witness for C6's amended theorem: an `x__gt` filter is tagged by the
non-eq rule; an `x__range` filter is not tagged by the non-trivial rule. -/
theorem nonEq_nonTrivial_sets_amended_witness :
    (annotateNote NON_EQ (opHasLookupIn NON_EQ_LOOKUPS (fixOp "q" ["x__gt"]))
        (fixOp "q" ["x__gt"]).note ≠ (fixOp "q" ["x__gt"]).note)
      ∧ ¬ (annotateNote NON_TRIVIAL
            (opHasLookupIn NON_TRIVIAL_LOOKUPS_DJANGO (fixOp "q" ["x__range"]))
            (fixOp "q" ["x__range"]).note ≠ (fixOp "q" ["x__range"]).note) := by
  constructor
  · exact (nonEq_nonTrivial_sets_amended.2.2.1 (fixOp "q" ["x__gt"]) (by decide)).mpr
      (by decide)
  · intro hne
    exact absurd ((nonEq_nonTrivial_sets_amended.2.2.2 (fixOp "q" ["x__range"])
      (by decide)).mp hne) (by decide)

/-! ## Claim C1: the containment-forest best path -/

theorem listMax_foldr_init (l : List Nat) (i : Nat) :
    l.foldr max i = max (listMax l) i := by
  induction l with
  | nil => simp [listMax]
  | cons x xs ih =>
    simp only [List.foldr_cons, ih, listMax]
    omega

theorem listMax_append (a b : List Nat) :
    listMax (a ++ b) = max (listMax a) (listMax b) := by
  unfold listMax
  rw [List.foldr_append, listMax_foldr_init]
  rfl

theorem listMax_flatten (l : List (List Nat)) :
    listMax l.flatten = listMax (l.map listMax) := by
  induction l with
  | nil => rfl
  | cons x xs ih =>
    simp only [List.flatten_cons, List.map_cons, listMax_append]
    simp only [listMax, List.foldr_cons] at *
    omega

theorem listMax_map_add (k : Nat) (l : List Nat) (h : l ≠ []) :
    listMax (l.map fun v => v + k) = listMax l + k := by
  induction l with
  | nil => exact absurd rfl h
  | cons x xs ih =>
    cases xs with
    | nil => simp [listMax]
    | cons y ys =>
      simp only [List.map_cons, listMax, List.foldr_cons] at *
      have := ih (by simp)
      omega

theorem bestFold_val (vals : List (List String × Nat)) (acc : List String × Nat) :
    (vals.foldl (fun acc c => if acc.2 < c.2 then c else acc) acc).2
      = max acc.2 (listMax (vals.map Prod.snd)) := by
  induction vals generalizing acc with
  | nil => simp [listMax]
  | cons v rest ih =>
    simp only [List.foldl_cons, List.map_cons, ih]
    have hacc : (if acc.2 < v.2 then v else acc).2 = max acc.2 v.2 := by
      split <;> omega
    simp only [hacc, listMax, List.foldr_cons]
    omega

theorem sizeOf_gnode_pos (n : GNode) : 0 < sizeOf n := by
  cases n with
  | mk cda children => simp [GNode.mk.sizeOf_spec]

theorem sizeOf_gnode_child_lt {c : GNode} {children : List GNode}
    (h : c ∈ children) (cda : List String) :
    sizeOf c < sizeOf (GNode.mk cda children) := by
  have := List.sizeOf_lt_of_mem h
  simp only [GNode.mk.sizeOf_spec]
  omega

theorem nodePaths_ne_nil (w : String → Nat) : ∀ n : GNode, nodePaths w n ≠ []
  | .mk cda [] => by
    unfold nodePaths
    split <;> simp
  | .mk cda (c0 :: rest) => by
    have h0 := nodePaths_ne_nil w c0
    unfold nodePaths
    intro hmap
    rw [List.map_eq_nil_iff, List.flatten_eq_nil_iff] at hmap
    refine h0 (hmap (nodePaths w c0) ?_)
    exact List.mem_map.mpr ⟨⟨c0, by simp⟩, by simp⟩
termination_by n => sizeOf n
decreasing_by
  exact sizeOf_gnode_child_lt (by simp) cda

/-- C1: the forest CDA-transitivity rule computes the root-to-leaf path of
maximal total operation count (the value returned by `findBestPath` is the
maximum, over all root-to-leaf paths of the forest node, of the sum of the
node weights along the path), tags exactly the operations whose column set
lies on that path with `cda[size/maxSize](a)` and every other operation
with the CDA auto-tag; in particular, for the entity with column sets
`{a,b}` (×3), `{a}` (×2), `{c}` (×1), the three `{a,b}` operations get
`cda[2/2](a)`, the two `{a}` operations get `cda[1/2](a)`, and the `{c}`
operation gets `cda-tran(a)`. -/
theorem cdaForest_bestPath_max_and_example :
    (∀ (w : String → Nat) (fuel : Nat) (n : GNode), sizeOf n ≤ fuel →
        (findBestPath w fuel n).2 = listMax ((nodePaths w n).map Prod.snd))
    ∧ autoAnnotateCdaTranForest getCdaStd cdaExampleGroup = cdaExampleTagged := by
  constructor
  · intro w fuel
    induction fuel with
    | zero =>
      intro n h
      exact absurd h (by have := sizeOf_gnode_pos n; omega)
    | succ fuel ih =>
      intro n h
      cases n with
      | mk cda children =>
        have hbest := bestFold_val (children.map (findBestPath w fuel)) ([], 0)
        have hvals : (children.map (findBestPath w fuel)).map Prod.snd
            = children.map fun c => listMax ((nodePaths w c).map Prod.snd) := by
          rw [List.map_map]
          refine List.map_congr_left fun c hc => ?_
          have hlt := sizeOf_gnode_child_lt hc cda
          exact ih c (by omega)
        cases children with
        | nil =>
          unfold findBestPath nodePaths
          split
          · simp [bestFold_val, listMax]
          · simp [bestFold_val, listMax]
        | cons c0 rest =>
          have hflatmax :
              listMax ((((c0 :: rest).attach.map fun c => nodePaths w c.1).flatten).map
                  Prod.snd)
                = listMax ((c0 :: rest).map fun c =>
                    listMax ((nodePaths w c).map Prod.snd)) := by
            rw [List.map_flatten, listMax_flatten]
            congr 1
            rw [List.map_map, List.map_map]
            exact List.attach_map_val (c0 :: rest)
              (fun c => listMax ((nodePaths w c).map Prod.snd))
          have hne :
              (((c0 :: rest).attach.map fun c => nodePaths w c.1).flatten).map
                  Prod.snd ≠ [] := by
            simp only [ne_eq, List.map_eq_nil_iff, List.flatten_eq_nil_iff]
            intro hall
            exact nodePaths_ne_nil w c0
              (hall (nodePaths w c0) (List.mem_map.mpr ⟨⟨c0, by simp⟩, by simp⟩))
          have hshift : ∀ (p : List String) (k : Nat),
              ((((c0 :: rest).attach.map fun c => nodePaths w c.1).flatten).map
                  fun pv => (pv.1 ++ p, pv.2 + k)).map Prod.snd
                = ((((c0 :: rest).attach.map fun c => nodePaths w c.1).flatten).map
                    Prod.snd).map fun v => v + k := by
            intro p k
            rw [List.map_map, List.map_map]
            rfl
          by_cases hc : cda.length > 0
          · simp only [findBestPath, nodePaths, if_pos hc, hbest, hvals,
              Nat.zero_max, hshift, listMax_map_add _ _ hne, hflatmax]
          · simp only [findBestPath, nodePaths, if_neg hc, hbest, hvals,
              Nat.zero_max, Nat.add_zero]
            rw [List.map_map]
            exact hflatmax.symm
  · decide

/-- Witness for C1's general conjunct at a concrete two-node forest. -/
theorem cdaForest_bestPath_max_witness :
    (findBestPath (fun _ => 1) (sizeOf (GNode.mk [] [GNode.mk ["a"] []]))
        (GNode.mk [] [GNode.mk ["a"] []])).2
      = listMax ((nodePaths (fun _ => 1) (GNode.mk [] [GNode.mk ["a"] []])).map
          Prod.snd) :=
  cdaForest_bestPath_max_and_example.1 (fun _ => 1)
    (sizeOf (GNode.mk [] [GNode.mk ["a"] []]))
    (GNode.mk [] [GNode.mk ["a"] []]) (Nat.le_refl _)

/-! ## Claim C2: idempotence of the annotation engine -/

theorem annotateNote_idem (tag : String) (cond : Bool) (note : String) :
    annotateNote tag cond (annotateNote tag cond note)
      = annotateNote tag cond note := by
  unfold annotateNote
  by_cases hinc : strIncludes note tag = true
  · simp [hinc]
  · rw [Bool.not_eq_true] at hinc
    cases cond with
    | false => simp [hinc]
    | true =>
      simp only [hinc, Bool.not_false, if_true]
      have : strIncludes (appendNote note (tag ++ "(a)")) tag = true :=
        strIncludes_appendNote_right (strIncludes_of_leading rfl)
      simp [this]

/-- C2 counterexample: running the forest CDA-transitivity rule a second
time on an unchanged model mutates operation notes again (the best-path
`cda[size/maxSize](a)` tokens are re-appended unconditionally), so the
engine including the forest best-path tagging is not idempotent. -/
theorem cdaForest_not_idempotent_counterexample :
    autoAnnotateCdaTranForest getCdaStd
        (autoAnnotateCdaTranForest getCdaStd cdaIdemGroup)
      ≠ autoAnnotateCdaTranForest getCdaStd cdaIdemGroup := by
  decide

/-- C2 amended: the full-scan rule, the non-eq/non-trivial rules (both the
`django.ts` and the shared `autoAnnotate.ts` variants) and the pairwise
CDA-transitivity rule are idempotent; the forest CDA-transitivity rule of
`part_013` is not: a second run re-appends the `cda[size/maxSize](a)`
token to every best-path operation's note (entity notes and remaining
operations are guarded and stay unchanged), as its behavior on the
one-operation example shows. -/
theorem annotation_rules_idempotent_except_forest :
    (∀ g : Group, autoAnnotateFullScan (autoAnnotateFullScan g)
      = autoAnnotateFullScan g)
    ∧ (∀ g : Group, autoAnnotateNonEqNonTrivial NON_EQ
        (autoAnnotateNonEqNonTrivial NON_EQ g) = autoAnnotateNonEqNonTrivial NON_EQ g)
    ∧ (∀ g : Group, autoAnnotateNonEqNonTrivial NON_TRIVIAL
        (autoAnnotateNonEqNonTrivial NON_TRIVIAL g)
          = autoAnnotateNonEqNonTrivial NON_TRIVIAL g)
    ∧ (∀ g : Group, autoannotateNonEqNonTrivialShared NON_EQ
        (autoannotateNonEqNonTrivialShared NON_EQ g)
          = autoannotateNonEqNonTrivialShared NON_EQ g)
    ∧ (∀ g : Group, autoannotateNonEqNonTrivialShared NON_TRIVIAL
        (autoannotateNonEqNonTrivialShared NON_TRIVIAL g)
          = autoannotateNonEqNonTrivialShared NON_TRIVIAL g)
    ∧ (∀ g : Group, autoAnnotateCdaTranPairwise (autoAnnotateCdaTranPairwise g)
        = autoAnnotateCdaTranPairwise g)
    ∧ autoAnnotateCdaTranForest getCdaStd
        (autoAnnotateCdaTranForest getCdaStd cdaIdemGroup)
      = [("E", { fixEntity "E" [fixOp "o" ["a"]] with
            note := "cda[a](a)",
            operations := [fixOpN "o" ["a"] "cda[1/1](a) cda[1/1](a)"] })] := by
  refine ⟨?_, ?_, ?_, ?_, ?_, ?_, by decide⟩
  · intro g
    unfold autoAnnotateFullScan
    rw [List.map_map]
    refine List.map_congr_left fun ke _ => ?_
    have hops : entityHasFullScan
        { ke.2 with note := annotateNote FULL_SCAN (entityHasFullScan ke.2) ke.2.note }
          = entityHasFullScan ke.2 := rfl
    simp [Function.comp, hops, annotateNote_idem]
  · intro g
    unfold autoAnnotateNonEqNonTrivial
    rw [List.map_map]
    refine List.map_congr_left fun ke _ => ?_
    simp only [Function.comp]
    congr 1
    congr 1
    rw [List.map_map]
    refine List.map_congr_left fun op _ => ?_
    simp only [Function.comp]
    congr 1
    exact annotateNote_idem _ _ _
  · intro g
    unfold autoAnnotateNonEqNonTrivial
    rw [List.map_map]
    refine List.map_congr_left fun ke _ => ?_
    simp only [Function.comp]
    congr 1
    congr 1
    rw [List.map_map]
    refine List.map_congr_left fun op _ => ?_
    simp only [Function.comp]
    congr 1
    exact annotateNote_idem _ _ _
  · intro g
    unfold autoannotateNonEqNonTrivialShared
    rw [List.map_map]
    refine List.map_congr_left fun ke _ => ?_
    simp only [Function.comp]
    congr 1
    congr 1
    rw [List.map_map]
    refine List.map_congr_left fun op _ => ?_
    simp only [Function.comp]
    congr 1
    exact annotateNote_idem _ _ _
  · intro g
    unfold autoannotateNonEqNonTrivialShared
    rw [List.map_map]
    refine List.map_congr_left fun ke _ => ?_
    simp only [Function.comp]
    congr 1
    congr 1
    rw [List.map_map]
    refine List.map_congr_left fun op _ => ?_
    simp only [Function.comp]
    congr 1
    exact annotateNote_idem _ _ _
  · intro g
    unfold autoAnnotateCdaTranPairwise
    rw [List.map_map]
    refine List.map_congr_left fun ke _ => ?_
    have hcdas : entityCdas
        { ke.2 with note := annotateNote CDA_TRAN (pairwiseCdaTran (entityCdas ke.2)) ke.2.note }
          = entityCdas ke.2 := rfl
    simp [Function.comp, hcdas, annotateNote_idem]

/-! ## Claim C3: resolver priority order -/

theorem mapGet_pushOpAt_ne (g : Group) (k k' : String) (op : Operation)
    (h : k' ≠ k) : mapGet (pushOpAt g k op) k' = mapGet g k' := by
  induction g with
  | nil => rfl
  | cons ke rest ih =>
    obtain ⟨k0, e0⟩ := ke
    show mapGet
        ((if k0 = k then (k0, { e0 with operations := e0.operations ++ [op] })
          else (k0, e0)) :: pushOpAt rest k op) k'
      = mapGet ((k0, e0) :: rest) k'
    by_cases h0 : k0 = k
    · rw [if_pos h0]
      show (if k0 = k' then some { e0 with operations := e0.operations ++ [op] }
            else mapGet (pushOpAt rest k op) k')
          = (if k0 = k' then some e0 else mapGet rest k')
      rw [if_neg fun hh : k0 = k' => h (hh ▸ h0),
        if_neg fun hh : k0 = k' => h (hh ▸ h0)]
      exact ih
    · rw [if_neg h0]
      show (if k0 = k' then some e0 else mapGet (pushOpAt rest k op) k')
          = (if k0 = k' then some e0 else mapGet rest k')
      by_cases h1 : k0 = k'
      · rw [if_pos h1, if_pos h1]
      · rw [if_neg h1, if_neg h1]
        exact ih

/-- C3: the attachment rules are tried in a fixed priority order, with the
fixed-table match for framework-global type names preceding the
generic-container pattern match: a call record with candidate types
`["EntityManager", "Repository<Foo>"]`, with `Foo` a declared entity, is
attached to the `[EntityManager]` bracket entity and never to `Foo`. -/
theorem typeorm_entityManager_precedes_repository
    (entities unknowns : Group) (pos : MsgMeta) (content : MethodMsg)
    (hts : content.objectTypes = ["EntityManager", "Repository<Foo>"])
    (hfoo : mapHas entities "Foo" = true) :
    typeormResolveCallees entities content.objectTypes = some "[EntityManager]"
      ∧ (typeormProcessMethod (entities, unknowns) pos content).1
          = pushOpAt entities "[EntityManager]" (typeormMkOperation pos content)
      ∧ (typeormProcessMethod (entities, unknowns) pos content).2 = unknowns
      ∧ mapGet (typeormProcessMethod (entities, unknowns) pos content).1 "Foo"
          = mapGet entities "Foo" := by
  have hres : typeormResolveCallees entities content.objectTypes
      = some "[EntityManager]" := by
    rw [hts]
    rfl
  refine ⟨hres, ?_, ?_, ?_⟩
  · simp [typeormProcessMethod, hres]
  · simp [typeormProcessMethod, hres]
  · simp only [typeormProcessMethod, hres]
    exact mapGet_pushOpAt_ne entities _ _ _ (by decide)

/-- Witness for C3 on the seeded bracket group with `Foo` declared. -/
theorem typeorm_entityManager_precedes_repository_witness :
    typeormResolveCallees typeormExampleEntities emRepoFooMsg.objectTypes
        = some "[EntityManager]"
      ∧ (typeormProcessMethod (typeormExampleEntities, []) fixPos emRepoFooMsg).1
          = pushOpAt typeormExampleEntities "[EntityManager]"
              (typeormMkOperation fixPos emRepoFooMsg)
      ∧ (typeormProcessMethod (typeormExampleEntities, []) fixPos emRepoFooMsg).2 = []
      ∧ mapGet (typeormProcessMethod (typeormExampleEntities, []) fixPos emRepoFooMsg).1 "Foo"
          = mapGet typeormExampleEntities "Foo" :=
  typeorm_entityManager_precedes_repository typeormExampleEntities [] fixPos
    emRepoFooMsg (by decide) (by decide)

/-! ## Claim C5: base-name ambiguity -/

theorem mapGet_mapSet_self {α : Type} (m : List (String × α)) (k : String) (v : α) :
    mapGet (mapSet m k v) k = some v := by
  induction m with
  | nil =>
    show mapGet [(k, v)] k = some v
    show (if k = k then some v else none) = some v
    rw [if_pos rfl]
  | cons kv rest ih =>
    obtain ⟨k0, v0⟩ := kv
    show mapGet (if k0 = k then (k, v) :: rest else (k0, v0) :: mapSet rest k v) k
      = some v
    by_cases h0 : k0 = k
    · rw [if_pos h0]
      show (if k = k then some v else mapGet rest k) = some v
      rw [if_pos rfl]
    · rw [if_neg h0]
      show (if k0 = k then some v0 else mapGet (mapSet rest k v) k) = some v
      rw [if_neg h0]
      exact ih

theorem mapGet_mapSet_ne {α : Type} (m : List (String × α)) (k k' : String) (v : α)
    (h : k' ≠ k) : mapGet (mapSet m k v) k' = mapGet m k' := by
  induction m with
  | nil =>
    show (if k = k' then some v else none) = none
    rw [if_neg fun hh : k = k' => h hh.symm]
  | cons kv rest ih =>
    obtain ⟨k0, v0⟩ := kv
    show mapGet (if k0 = k then (k, v) :: rest else (k0, v0) :: mapSet rest k v) k'
      = mapGet ((k0, v0) :: rest) k'
    by_cases h0 : k0 = k
    · rw [if_pos h0]
      show (if k = k' then some v else mapGet rest k')
        = (if k0 = k' then some v0 else mapGet rest k')
      rw [if_neg fun hh : k = k' => h hh.symm,
        if_neg fun hh : k0 = k' => h (hh ▸ h0)]
    · rw [if_neg h0]
      show (if k0 = k' then some v0 else mapGet (mapSet rest k v) k')
        = (if k0 = k' then some v0 else mapGet rest k')
      by_cases h1 : k0 = k'
      · rw [if_pos h1, if_pos h1]
      · rw [if_neg h1, if_neg h1]
        exact ih

theorem baseNamesStep_preserves_present {acc : List (String × Option String)}
    {b : String} (ke : String × Entity) (h : (mapGet acc b).isSome = true) :
    (mapGet (baseNamesStep acc ke) b).isSome = true := by
  simp only [baseNamesStep]
  split
  · exact h
  · by_cases hb : b = baseOf ke.1
    · subst hb
      split <;> simp [mapGet_mapSet_self]
    · split <;> rw [mapGet_mapSet_ne _ _ _ _ hb] <;> exact h

theorem baseNamesStep_hit_present {acc : List (String × Option String)}
    {b : String} (ke : String × Entity) (hbr : strStartsWith ke.1 "[" = false)
    (hb : baseOf ke.1 = b) :
    (mapGet (baseNamesStep acc ke) b).isSome = true := by
  simp only [baseNamesStep, hbr]
  subst hb
  simp only [Bool.false_eq_true, if_false]
  split <;> simp [mapGet_mapSet_self]

theorem baseNames_none_persists (l : Group) :
    ∀ (acc : List (String × Option String)) (b : String),
      mapGet acc b = some none →
      mapGet (l.foldl baseNamesStep acc) b = some none := by
  induction l with
  | nil => exact fun acc b h => h
  | cons ke rest ih =>
    intro acc b h
    refine ih _ b ?_
    simp only [baseNamesStep]
    split
    · exact h
    · by_cases hb : b = baseOf ke.1
      · subst hb
        rw [h]
        simp [mapGet_mapSet_self]
      · split <;> rw [mapGet_mapSet_ne _ _ _ _ hb] <;> exact h

theorem baseNames_second_hit (l : Group) :
    ∀ (acc : List (String × Option String)) (b n : String) (e : Entity),
      (mapGet acc b).isSome = true →
      (n, e) ∈ l → strStartsWith n "[" = false → baseOf n = b →
      mapGet (l.foldl baseNamesStep acc) b = some none := by
  induction l with
  | nil => intro _ _ _ _ _ hmem; cases hmem
  | cons ke rest ih =>
    intro acc b n e hpresent hmem hbr hbase
    rcases List.mem_cons.mp hmem with heq | hmem'
    · subst heq
      refine baseNames_none_persists rest _ b ?_
      simp only [baseNamesStep, hbr, hbase]
      simp only [Bool.false_eq_true, if_false]
      obtain ⟨v, hv⟩ := Option.isSome_iff_exists.mp hpresent
      rw [hv]
      exact mapGet_mapSet_self _ _ _
    · exact ih _ b n e (baseNamesStep_preserves_present ke hpresent) hmem' hbr hbase

theorem baseNames_two_hits (l : Group) :
    ∀ (acc : List (String × Option String)) (b n1 n2 : String) (e1 e2 : Entity),
      (n1, e1) ∈ l → (n2, e2) ∈ l → n1 ≠ n2 →
      strStartsWith n1 "[" = false → strStartsWith n2 "[" = false →
      baseOf n1 = b → baseOf n2 = b →
      mapGet (l.foldl baseNamesStep acc) b = some none := by
  induction l with
  | nil => intro _ _ _ _ _ _ hmem; cases hmem
  | cons ke rest ih =>
    intro acc b n1 n2 e1 e2 h1 h2 hne hbr1 hbr2 hbase1 hbase2
    rcases List.mem_cons.mp h1 with heq1 | h1'
    · subst heq1
      rcases List.mem_cons.mp h2 with heq2 | h2'
      · exact absurd (congrArg Prod.fst heq2.symm) hne
      · exact baseNames_second_hit rest _ b n2 e2
          (baseNamesStep_hit_present _ hbr1 hbase1) h2' hbr2 hbase2
    · rcases List.mem_cons.mp h2 with heq2 | h2'
      · subst heq2
        exact baseNames_second_hit rest _ b n1 e1
          (baseNamesStep_hit_present _ hbr2 hbase2) h1' hbr1 hbase1
      · exact ih _ b n1 n2 e1 e2 h1' h2' hne hbr1 hbr2 hbase1 hbase2

/-- C5: when two distinct (non-bracket) recognized entities share the same
last path segment, `getBaseEntityNames` marks that base name ambiguous
(maps it to `null`), so the suffix-stripping `FooManager` rule never
attaches through the base-name map; concretely, with `app.Foo` and
`lib.Foo` declared, a call with candidate type `FooManager` resolves to no
recognized entity and falls through to the Unknown group, where it is
appended to the `FooManager` pseudo-entity. -/
theorem baseName_ambiguity_no_attach :
    (∀ (entities : Group) (b n1 n2 : String) (e1 e2 : Entity),
      (n1, e1) ∈ entities → (n2, e2) ∈ entities → n1 ≠ n2 →
      strStartsWith n1 "[" = false → strStartsWith n2 "[" = false →
      baseOf n1 = b → baseOf n2 = b →
      mapGet (getBaseEntityNames entities) b = some none)
    ∧ mapGet (getBaseEntityNames djangoAmbiguousEntities) "Foo" = some none
    ∧ djangoResolveCallees djangoAmbiguousEntities
        (getBaseEntityNames djangoAmbiguousEntities) fooManagerMsg
        fooManagerMsg.objectTypes = none
    ∧ (djangoProcessMethod (djangoAmbiguousEntities, [])
          (getBaseEntityNames djangoAmbiguousEntities) fixPos fooManagerMsg).1
        = djangoAmbiguousEntities
    ∧ (djangoProcessMethod (djangoAmbiguousEntities, [])
          (getBaseEntityNames djangoAmbiguousEntities) fixPos fooManagerMsg).2
        = [("FooManager",
            { freshEntity "FooManager" with
              operations := [djangoMkOperation fixPos fooManagerMsg] })] := by
  refine ⟨?_, by decide, by decide, by decide, by decide⟩
  intro entities b n1 n2 e1 e2 h1 h2 hne hbr1 hbr2 hbase1 hbase2
  exact baseNames_two_hits entities [] b n1 n2 e1 e2 h1 h2 hne hbr1 hbr2 hbase1 hbase2

/-- Witness for C5's general conjunct at the `app.Foo`/`lib.Foo` group. -/
theorem baseName_ambiguity_no_attach_witness :
    mapGet (getBaseEntityNames djangoAmbiguousEntities) "Foo" = some none :=
  baseName_ambiguity_no_attach.1 djangoAmbiguousEntities "Foo" "app.Foo" "lib.Foo"
    (freshEntity "app.Foo") (freshEntity "lib.Foo")
    (by decide) (by decide) (by decide) (by decide) (by decide) (by decide) (by decide)

/-! ## Claim C8: move correctness -/

theorem findOpInGroup_foldl_none (loc : MovedItemLocator) (l : Group) :
    ∀ acc, (∀ ke ∈ l, findOpIdx ke.2.operations loc = none) →
      l.foldl
        (fun acc (ke : String × Entity) =>
          match findOpIdx ke.2.operations loc with
          | some (i, op) => some (ke.1, i, op)
          | none => acc)
        acc = acc := by
  induction l with
  | nil => intro acc _; rfl
  | cons ke rest ih =>
    intro acc h
    have hke := h ke (by simp)
    simp only [List.foldl_cons, hke]
    exact ih acc fun ke' hke' => h ke' (by simp [hke'])

theorem findOpInGroup_split (loc : MovedItemLocator) (g1 g2 : Group)
    (a : String) (A : Entity) (i : Nat) (op : Operation)
    (hA : findOpIdx A.operations loc = some (i, op))
    (h2 : ∀ ke ∈ g2, findOpIdx ke.2.operations loc = none) :
    findOpInGroup (g1 ++ (a, A) :: g2) loc = some (a, i, op) := by
  unfold findOpInGroup
  rw [List.foldl_append, List.foldl_cons, hA]
  exact findOpInGroup_foldl_none loc g2 _ h2

theorem mapGet_of_mem_nodup (g : Group) (a : String) (A : Entity)
    (hmem : (a, A) ∈ g) (hnodup : (g.map Prod.fst).Nodup) :
    mapGet g a = some A := by
  induction g with
  | nil => cases hmem
  | cons ke rest ih =>
    obtain ⟨k0, e0⟩ := ke
    rcases List.mem_cons.mp hmem with heq | hmem'
    · obtain ⟨h1, h2⟩ := Prod.mk.injEq .. ▸ heq
      show (if k0 = a then some e0 else mapGet rest a) = some A
      rw [if_pos (by exact h1.symm ▸ rfl)]
      exact congrArg some h2.symm
    · have hk0 : k0 ≠ a := by
        intro hk
        subst hk
        have : k0 ∈ rest.map Prod.fst := List.mem_map.mpr ⟨(k0, A), hmem', rfl⟩
        exact (List.nodup_cons.mp (by simpa using hnodup)).1 this
      show (if k0 = a then some e0 else mapGet rest a) = some A
      rw [if_neg hk0]
      exact ih hmem' (List.nodup_cons.mp (by simpa using hnodup)).2

theorem mapGet_deleteOpAt (g : Group) (a : String) (i : Nat) :
    mapGet (deleteOpAt g a i) a
      = (mapGet g a).map fun e => { e with operations := e.operations.eraseIdx i } := by
  induction g with
  | nil => rfl
  | cons ke rest ih =>
    obtain ⟨k0, e0⟩ := ke
    show mapGet
        ((if k0 = a then (k0, { e0 with operations := e0.operations.eraseIdx i })
          else (k0, e0)) :: deleteOpAt rest a i) a
      = (mapGet ((k0, e0) :: rest) a).map _
    by_cases h0 : k0 = a
    · rw [if_pos h0]
      show (if k0 = a then some { e0 with operations := e0.operations.eraseIdx i }
            else mapGet (deleteOpAt rest a i) a)
          = ((if k0 = a then some e0 else mapGet rest a).map _)
      rw [if_pos h0, if_pos h0]
      rfl
    · rw [if_neg h0]
      show (if k0 = a then some e0 else mapGet (deleteOpAt rest a i) a)
          = ((if k0 = a then some e0 else mapGet rest a).map _)
      rw [if_neg h0, if_neg h0]
      exact ih

theorem mapGet_deleteOpAt_ne (g : Group) (a k' : String) (i : Nat)
    (h : k' ≠ a) : mapGet (deleteOpAt g a i) k' = mapGet g k' := by
  induction g with
  | nil => rfl
  | cons ke rest ih =>
    obtain ⟨k0, e0⟩ := ke
    show mapGet
        ((if k0 = a then (k0, { e0 with operations := e0.operations.eraseIdx i })
          else (k0, e0)) :: deleteOpAt rest a i) k'
      = mapGet ((k0, e0) :: rest) k'
    by_cases h0 : k0 = a
    · rw [if_pos h0]
      show (if k0 = k' then some { e0 with operations := e0.operations.eraseIdx i }
            else mapGet (deleteOpAt rest a i) k')
          = (if k0 = k' then some e0 else mapGet rest k')
      rw [if_neg fun hh : k0 = k' => h (hh ▸ h0), if_neg fun hh : k0 = k' => h (hh ▸ h0)]
      exact ih
    · rw [if_neg h0]
      show (if k0 = k' then some e0 else mapGet (deleteOpAt rest a i) k')
          = (if k0 = k' then some e0 else mapGet rest k')
      by_cases h1 : k0 = k'
      · rw [if_pos h1, if_pos h1]
      · rw [if_neg h1, if_neg h1]
        exact ih

/-- C8: moving an operation located structurally (name plus all five
location fields) from entity `A` to a target `B` removes exactly one
occurrence (the first match, at index `i`) from `A`'s list and appends
exactly one occurrence to `B`'s list, leaving every other entity
untouched — also when `A` holds another operation with the same name at a
different location (the concrete conjunct moves `op@selB` out of an entity
that also holds `op@selA`); recorded deletions are applied by descending
index so earlier splices do not invalidate later ones (the concrete
two-locator conjunct deletes indices 0 and 2); moving an operation into
its current parent is a skipped no-op. -/
theorem moveOperations_single_move (g : Group) (a : String) (A : Entity)
    (i : Nat) (op : Operation) (loc : MovedItemLocator) (T : List Operation)
    (hmem : (a, A) ∈ g) (hnodup : (g.map Prod.fst).Nodup)
    (hfind : findOpIdx A.operations loc = some (i, op))
    (hothers : ∀ ke ∈ g, ke.1 ≠ a → findOpIdx ke.2.operations loc = none) :
    (moveOperations g (.external T) [loc] = (deleteOpAt g a i, T ++ [op])
      ∧ mapGet (deleteOpAt g a i) a
          = some { A with operations := A.operations.eraseIdx i }
      ∧ (∀ k', k' ≠ a → mapGet (deleteOpAt g a i) k' = mapGet g k')
      ∧ moveOperations g (.inGroup a) [loc] = (g, []))
    ∧ moveOperations moveExampleGroup (.inGroup "B") [locatorFor "op" selB]
        = ([("A", fixEntity "A" [opAt "op" selA, opAt "other" selC]),
            ("B", fixEntity "B" [opAt "op" selB])], [])
    ∧ moveOperations moveExampleGroup (.external [])
          [locatorFor "op" selA, locatorFor "other" selC]
        = ([("A", fixEntity "A" [opAt "op" selB]), ("B", fixEntity "B" [])],
           [opAt "op" selA, opAt "other" selC])
    ∧ moveOperations moveExampleGroup (.inGroup "A") [locatorFor "op" selA]
        = (moveExampleGroup, []) := by
  have hfindg : findOpInGroup g loc = some (a, i, op) := by
    obtain ⟨g1, g2, hg⟩ := List.append_of_mem hmem
    subst hg
    refine findOpInGroup_split loc g1 g2 a A i op hfind fun ke hke => ?_
    refine hothers ke (by simp [hke]) ?_
    intro hk
    subst hk
    have hmap : ((g1 ++ (ke.1, A) :: g2).map Prod.fst).Nodup := hnodup
    rw [List.map_append, List.map_cons] at hmap
    have := (List.nodup_append.mp hmap).2.1
    exact (List.nodup_cons.mp this).1 (List.mem_map.mpr ⟨ke, hke, rfl⟩)
  refine ⟨⟨?_, ?_, ?_, ?_⟩, by decide, by decide, by decide⟩
  · simp [moveOperations, moveOpStep, hfindg, sortDescBy, insertDescBy]
  · rw [mapGet_deleteOpAt, mapGet_of_mem_nodup g a A hmem hnodup]
    rfl
  · exact fun k' hk' => mapGet_deleteOpAt_ne g a k' i hk'
  · simp [moveOperations, moveOpStep, hfindg, sortDescBy]

/-- Witness for C8's general conjunct on the concrete example group. -/
theorem moveOperations_single_move_witness :
    moveOperations moveExampleGroup
        (.external []) [locatorFor "op" selB]
      = (deleteOpAt moveExampleGroup "A" 1, [] ++ [opAt "op" selB]) :=
  ((moveOperations_single_move moveExampleGroup "A"
      (fixEntity "A" [opAt "op" selA, opAt "op" selB, opAt "other" selC])
      1 (opAt "op" selB) (locatorFor "op" selB) []
      (by decide) (by decide) (by decide) (by decide)).1).1

/-! ## Claim C4: every method-call record attaches to exactly one entity -/

theorem mapHas_of_mem {g : Group} {k : String} {v : Entity} (h : (k, v) ∈ g) :
    mapHas g k = true := by
  induction g with
  | nil => cases h
  | cons ke rest ih =>
    obtain ⟨k0, v0⟩ := ke
    show ((if k0 = k then some v0 else mapGet rest k)).isSome = true
    rcases List.mem_cons.mp h with heq | hmem
    · rw [if_pos (congrArg Prod.fst heq).symm]
      rfl
    · by_cases h0 : k0 = k
      · rw [if_pos h0]; rfl
      · rw [if_neg h0]; exact ih hmem

theorem pushOpAt_not_has (g : Group) (k : String) (op : Operation)
    (h : mapHas g k = false) : pushOpAt g k op = g := by
  induction g with
  | nil => rfl
  | cons ke rest ih =>
    obtain ⟨k0, e0⟩ := ke
    have h0 : k0 ≠ k := by
      intro hk
      subst hk
      simp [mapHas, mapGet] at h
    have hrest : mapHas rest k = false := by
      simp only [mapHas, mapGet, if_neg h0] at h
      exact h
    show (if k0 = k then (k0, { e0 with operations := e0.operations ++ [op] })
          else (k0, e0)) :: pushOpAt rest k op = (k0, e0) :: rest
    rw [if_neg h0, ih hrest]

theorem mem_of_mapGet {g : Group} {k : String} {e : Entity}
    (h : mapGet g k = some e) : (k, e) ∈ g := by
  induction g with
  | nil => cases h
  | cons ke rest ih =>
    obtain ⟨k0, e0⟩ := ke
    by_cases h0 : k0 = k
    · subst h0
      simp only [mapGet, if_pos rfl] at h
      cases h
      exact List.mem_cons_self _ _
    · simp only [mapGet, if_neg h0] at h
      exact List.mem_cons_of_mem _ (ih h)

theorem totalOps_pushOpAt (g : Group) (k : String) (op : Operation)
    (hnodup : (g.map Prod.fst).Nodup) (hhas : mapHas g k = true) :
    totalOps (pushOpAt g k op) = totalOps g + 1 := by
  induction g with
  | nil => simp [mapHas, mapGet] at hhas
  | cons ke rest ih =>
    obtain ⟨k0, e0⟩ := ke
    show totalOps
        ((if k0 = k then (k0, { e0 with operations := e0.operations ++ [op] })
          else (k0, e0)) :: pushOpAt rest k op)
      = totalOps ((k0, e0) :: rest) + 1
    by_cases h0 : k0 = k
    · subst h0
      rw [if_pos rfl]
      have hnotin : mapHas rest k0 = false := by
        rcases hh : mapHas rest k0 with _ | _
        · rfl
        · exfalso
          obtain ⟨e, he⟩ := Option.isSome_iff_exists.mp hh
          have : k0 ∈ rest.map Prod.fst :=
            List.mem_map.mpr ⟨(k0, e), mem_of_mapGet he, rfl⟩
          exact (List.nodup_cons.mp (by simpa using hnodup)).1 this
      rw [pushOpAt_not_has rest k0 op hnotin]
      simp only [totalOps, List.map_cons, List.sum_cons, List.length_append,
        List.length_singleton]
      omega
    · have hrest : mapHas rest k = true := by
        simp only [mapHas, mapGet, if_neg h0] at hhas
        exact hhas
      have := ih (List.nodup_cons.mp (by simpa using hnodup)).2 hrest
      rw [if_neg h0]
      simp only [totalOps, List.map_cons, List.sum_cons] at *
      omega

theorem mapSet_not_has (g : Group) (k : String) (v : Entity)
    (h : mapHas g k = false) : mapSet g k v = g ++ [(k, v)] := by
  induction g with
  | nil => rfl
  | cons ke rest ih =>
    obtain ⟨k0, e0⟩ := ke
    have h0 : k0 ≠ k := by
      intro hk
      subst hk
      simp [mapHas, mapGet] at h
    have hrest : mapHas rest k = false := by
      simp only [mapHas, mapGet, if_neg h0] at h
      exact h
    show (if k0 = k then (k, v) :: rest else (k0, e0) :: mapSet rest k v)
      = (k0, e0) :: (rest ++ [(k, v)])
    rw [if_neg h0, ih hrest]

theorem totalOps_append (g1 g2 : Group) :
    totalOps (g1 ++ g2) = totalOps g1 + totalOps g2 := by
  simp [totalOps]

theorem nodup_keys_mapSet_new (g : Group) (k : String) (v : Entity)
    (hnodup : (g.map Prod.fst).Nodup) (h : mapHas g k = false) :
    ((mapSet g k v).map Prod.fst).Nodup := by
  rw [mapSet_not_has g k v h]
  rw [List.map_append]
  refine List.Nodup.append hnodup (by simp) ?_
  intro a ha hb
  simp only [List.map_cons, List.map_nil, List.mem_singleton] at hb
  subst hb
  obtain ⟨⟨k', e'⟩, hmem, hfst⟩ := List.mem_map.mp ha
  cases hfst
  exact absurd (mapHas_of_mem hmem) (by simp [h])

theorem typeormResolveOneTail_has (entities : Group) (c k : String)
    (h : typeormResolveOne.typeormResolveOneTail entities c = some k) :
    mapHas entities k = true := by
  unfold typeormResolveOne.typeormResolveOneTail at h
  split at h
  · split_ifs at h with h1 h2
    · cases h; exact h1
    · cases h; exact h2
  · split_ifs at h with h1
    · cases h; exact h1

theorem typeormResolveOne_has (entities : Group) (c k : String)
    (hem : mapHas entities "[EntityManager]" = true)
    (hqr : mapHas entities "[QueryRunner]" = true)
    (hcn : mapHas entities "[Connection]" = true)
    (hds : mapHas entities "[DataSource]" = true)
    (h : typeormResolveOne entities c = some k) :
    mapHas entities k = true := by
  unfold typeormResolveOne at h
  split_ifs at h with h1 h2 h3 h4
  · cases h; exact hem
  · cases h; exact hqr
  · cases h; exact hcn
  · cases h; exact hds
  · split at h
    · split_ifs at h with h5
      · cases h; exact h5
      · exact typeormResolveOneTail_has entities c k h
    · exact typeormResolveOneTail_has entities c k h

theorem typeormResolveCallees_has (entities : Group) (k : String)
    (hem : mapHas entities "[EntityManager]" = true)
    (hqr : mapHas entities "[QueryRunner]" = true)
    (hcn : mapHas entities "[Connection]" = true)
    (hds : mapHas entities "[DataSource]" = true) :
    ∀ cs : List String, typeormResolveCallees entities cs = some k →
      mapHas entities k = true := by
  intro cs
  induction cs with
  | nil => intro h; cases h
  | cons c rest ih =>
    intro h
    unfold typeormResolveCallees at h
    split at h
    · cases h
      exact typeormResolveOne_has entities c k hem hqr hcn hds (by assumption)
    · exact ih h

theorem firstRecognized_has (entities : Group) (k : String) :
    ∀ ns : List String, firstRecognized entities ns = some k →
      mapHas entities k = true := by
  intro ns
  induction ns with
  | nil => intro h; cases h
  | cons n rest ih =>
    intro h
    unfold firstRecognized at h
    split_ifs at h with h1
    · cases h; exact h1
    · exact ih h

theorem getBaseEntityNames_values_has (entities : Group) :
    ∀ (l : Group) (acc : List (String × Option String)),
      (∀ b f, mapGet acc b = some (some f) → mapHas entities f = true) →
      (∀ ke ∈ l, mapHas entities ke.1 = true) →
      ∀ b f, mapGet (l.foldl baseNamesStep acc) b = some (some f) →
        mapHas entities f = true := by
  intro l
  induction l with
  | nil => intro acc hacc _ b f h; exact hacc b f h
  | cons ke rest ih =>
    intro acc hacc hl b f h
    refine ih (baseNamesStep acc ke) ?_ (fun ke' hke' => hl ke' (by simp [hke'])) b f h
    intro b' f' h'
    simp only [baseNamesStep] at h'
    split at h'
    · exact hacc b' f' h'
    · split at h'
      · by_cases hb : b' = baseOf ke.1
        · subst hb
          rw [mapGet_mapSet_self] at h'
          cases h'
        · rw [mapGet_mapSet_ne _ _ _ _ hb] at h'
          exact hacc b' f' h'
      · by_cases hb : b' = baseOf ke.1
        · subst hb
          rw [mapGet_mapSet_self] at h'
          cases h'
          exact hl ke (by simp)
        · rw [mapGet_mapSet_ne _ _ _ _ hb] at h'
          exact hacc b' f' h'

theorem optionChain_eq_some {o rest : Option String} {k : String}
    (h : (match o with | some k' => some k' | none => rest) = some k) :
    o = some k ∨ (o = none ∧ rest = some k) := by
  cases o with
  | some v => exact Or.inl (by simpa using h)
  | none => exact Or.inr ⟨rfl, h⟩

theorem djangoResolveOne_has (entities : Group) (content : MethodMsg)
    (c k : String)
    (hat : mapHas entities "[django.db.transaction.atomic]" = true)
    (h : djangoResolveOne entities (getBaseEntityNames entities) content c
      = some k) :
    mapHas entities k = true := by
  have hbase : ∀ b f, mapGet (getBaseEntityNames entities) b = some (some f) →
      mapHas entities f = true := by
    intro b f hb
    exact getBaseEntityNames_values_has entities entities []
      (by intro _ _ hx; cases hx)
      (fun ke hke => by
        obtain ⟨k', e'⟩ := ke
        exact mapHas_of_mem hke)
      b f hb
  unfold djangoResolveOne at h
  by_cases h1 : c = "django.db.transaction.atomic"
  · rw [if_pos h1] at h
    cases h
    exact hat
  · rw [if_neg h1] at h
    rcases optionChain_eq_some h with h2 | ⟨_, h⟩
    · obtain ⟨n, _, hn⟩ := Option.bind_eq_some.mp h2
      split_ifs at hn with hh
      · cases hn; exact hh
    rcases optionChain_eq_some h with h2 | ⟨_, h⟩
    · obtain ⟨n, _, hn⟩ := Option.bind_eq_some.mp h2
      split_ifs at hn with hh
      · cases hn; exact hh
    rcases optionChain_eq_some h with h2 | ⟨_, h⟩
    · obtain ⟨ns, _, hn⟩ := Option.bind_eq_some.mp h2
      exact firstRecognized_has entities k _ hn
    rcases optionChain_eq_some h with h2 | ⟨_, h⟩
    · obtain ⟨b, _, hb⟩ := Option.bind_eq_some.mp h2
      split at hb
      · cases hb
        exact hbase b k (by assumption)
      · cases hb
    rcases optionChain_eq_some h with h2 | ⟨_, h⟩
    · split_ifs at h2 with hh
      · split at h2
        · cases h2
          exact hbase _ k (by assumption)
        · cases h2
    rcases optionChain_eq_some h with h2 | ⟨_, h⟩
    · split_ifs at h2 with hh
      · obtain ⟨b, _, hb⟩ := Option.bind_eq_some.mp h2
        split at hb
        · cases hb
          exact hbase b k (by assumption)
        · cases hb
    split_ifs at h with hh
    cases h
    exact hh

theorem djangoResolveCallees_has (entities : Group) (content : MethodMsg)
    (k : String)
    (hat : mapHas entities "[django.db.transaction.atomic]" = true) :
    ∀ cs : List String,
      djangoResolveCallees entities (getBaseEntityNames entities) content cs
        = some k →
      mapHas entities k = true := by
  intro cs
  induction cs with
  | nil => intro h; cases h
  | cons c rest ih =>
    intro h
    unfold djangoResolveCallees at h
    split at h
    · cases h
      exact djangoResolveOne_has entities content c k hat (by assumption)
    · exact ih h

theorem mapGet_pushOpAt_self (g : Group) (k : String) (op : Operation) :
    mapGet (pushOpAt g k op) k
      = (mapGet g k).map fun e => { e with operations := e.operations ++ [op] } := by
  induction g with
  | nil => rfl
  | cons ke rest ih =>
    obtain ⟨k0, e0⟩ := ke
    show mapGet
        ((if k0 = k then (k0, { e0 with operations := e0.operations ++ [op] })
          else (k0, e0)) :: pushOpAt rest k op) k
      = (mapGet ((k0, e0) :: rest) k).map _
    by_cases h0 : k0 = k
    · rw [if_pos h0]
      show (if k0 = k then some { e0 with operations := e0.operations ++ [op] }
            else mapGet (pushOpAt rest k op) k)
          = ((if k0 = k then some e0 else mapGet rest k).map _)
      rw [if_pos h0, if_pos h0]
      rfl
    · rw [if_neg h0]
      show (if k0 = k then some e0 else mapGet (pushOpAt rest k op) k)
          = ((if k0 = k then some e0 else mapGet rest k).map _)
      rw [if_neg h0, if_neg h0]
      exact ih

/-- The shared fallback of both `collectOperations` loops: get-or-create
the Unknown bucket keyed by `k` and append the operation. -/
theorem unknown_bucket_spec (unknowns : Group) (k : String) (op : Operation)
    (hnodup : (unknowns.map Prod.fst).Nodup) :
    totalOps (pushOpAt
        (if mapHas unknowns k then unknowns
         else mapSet unknowns k (freshEntity k)) k op)
      = totalOps unknowns + 1
    ∧ mapGet (pushOpAt
        (if mapHas unknowns k then unknowns
         else mapSet unknowns k (freshEntity k)) k op) k
        = some (match mapGet unknowns k with
                | some e => { e with operations := e.operations ++ [op] }
                | none => { freshEntity k with operations := [op] })
    ∧ ∀ k', k' ≠ k →
        mapGet (pushOpAt
          (if mapHas unknowns k then unknowns
           else mapSet unknowns k (freshEntity k)) k op) k'
        = mapGet unknowns k' := by
  by_cases hhas : mapHas unknowns k = true
  · rw [if_pos hhas]
    obtain ⟨e, he⟩ := Option.isSome_iff_exists.mp hhas
    refine ⟨totalOps_pushOpAt unknowns k op hnodup hhas, ?_, ?_⟩
    · rw [mapGet_pushOpAt_self, he]
      rfl
    · exact fun k' hk' => mapGet_pushOpAt_ne unknowns k k' op hk'
  · rw [if_neg hhas]
    rw [Bool.not_eq_true] at hhas
    have hset := mapSet_not_has unknowns k (freshEntity k) hhas
    have hsetnodup := nodup_keys_mapSet_new unknowns k (freshEntity k) hnodup hhas
    have hsethas : mapHas (mapSet unknowns k (freshEntity k)) k = true := by
      simp [mapHas, mapGet_mapSet_self]
    have hget0 : mapGet unknowns k = none := by
      rcases hg : mapGet unknowns k with _ | e
      · rfl
      · exact absurd (show mapHas unknowns k = true by simp [mapHas, hg])
          (by rw [hhas]; exact Bool.false_ne_true)
    refine ⟨?_, ?_, ?_⟩
    · rw [totalOps_pushOpAt _ k op hsetnodup hsethas, hset, totalOps_append]
      simp [totalOps, freshEntity]
    · rw [mapGet_pushOpAt_self, mapGet_mapSet_self, hget0]
      simp [freshEntity]
    · intro k' hk'
      rw [mapGet_pushOpAt_ne _ k k' op hk', mapGet_mapSet_ne _ _ _ _ hk']

/-- C4: after resolution every method-call record is attached to exactly
one entity across the two groups — the total operation count over both
groups grows by exactly one per method message (no record lost, none
duplicated) — and when no candidate type matches any rule, the operation
is appended to an Unknown-group pseudo-entity keyed by the FIRST candidate
type, created on demand with no location; this holds for both the TypeORM
and the Django `collectOperations`. -/
theorem method_call_exactly_one_attachment :
    (∀ (entities unknowns : Group) (pos : MsgMeta) (content : MethodMsg),
      (entities.map Prod.fst).Nodup → (unknowns.map Prod.fst).Nodup →
      mapHas entities "[EntityManager]" = true →
      mapHas entities "[QueryRunner]" = true →
      mapHas entities "[Connection]" = true →
      mapHas entities "[DataSource]" = true →
      (totalOps (typeormProcessMethod (entities, unknowns) pos content).1
          + totalOps (typeormProcessMethod (entities, unknowns) pos content).2
        = totalOps entities + totalOps unknowns + 1)
      ∧ (typeormResolveCallees entities content.objectTypes = none →
          (typeormProcessMethod (entities, unknowns) pos content).1 = entities
          ∧ mapGet (typeormProcessMethod (entities, unknowns) pos content).2
              (content.objectTypes.headD "")
            = some (match mapGet unknowns (content.objectTypes.headD "") with
                    | some e => { e with operations :=
                        e.operations ++ [typeormMkOperation pos content] }
                    | none => { freshEntity (content.objectTypes.headD "") with
                        operations := [typeormMkOperation pos content] })
          ∧ ∀ k', k' ≠ content.objectTypes.headD "" →
              mapGet (typeormProcessMethod (entities, unknowns) pos content).2 k'
                = mapGet unknowns k'))
    ∧ (∀ (entities unknowns : Group) (pos : MsgMeta) (content : MethodMsg),
      (entities.map Prod.fst).Nodup → (unknowns.map Prod.fst).Nodup →
      mapHas entities "[django.db.transaction.atomic]" = true →
      (totalOps (djangoProcessMethod (entities, unknowns)
            (getBaseEntityNames entities) pos content).1
          + totalOps (djangoProcessMethod (entities, unknowns)
            (getBaseEntityNames entities) pos content).2
        = totalOps entities + totalOps unknowns + 1)
      ∧ (djangoResolveCallees entities (getBaseEntityNames entities) content
            content.objectTypes = none →
          (djangoProcessMethod (entities, unknowns)
              (getBaseEntityNames entities) pos content).1 = entities
          ∧ mapGet (djangoProcessMethod (entities, unknowns)
                (getBaseEntityNames entities) pos content).2
              (content.objectTypes.headD "")
            = some (match mapGet unknowns (content.objectTypes.headD "") with
                    | some e => { e with operations :=
                        e.operations ++ [djangoMkOperation pos content] }
                    | none => { freshEntity (content.objectTypes.headD "") with
                        operations := [djangoMkOperation pos content] }))) := by
  constructor
  · intro entities unknowns pos content hn1 hn2 hem hqr hcn hds
    rcases hres : typeormResolveCallees entities content.objectTypes with _ | k
    · have hspec := unknown_bucket_spec unknowns (content.objectTypes.headD "")
        (typeormMkOperation pos content) hn2
      constructor
      · simp only [typeormProcessMethod, hres]
        omega
      · intro _
        refine ⟨by simp [typeormProcessMethod, hres], ?_, ?_⟩
        · simpa [typeormProcessMethod, hres] using hspec.2.1
        · intro k' hk'
          simpa [typeormProcessMethod, hres] using hspec.2.2 k' hk'
    · have hhas := typeormResolveCallees_has entities k hem hqr hcn hds
        content.objectTypes hres
      constructor
      · simp only [typeormProcessMethod, hres]
        rw [totalOps_pushOpAt entities k _ hn1 hhas]
        omega
      · intro hnone
        cases hnone
  · intro entities unknowns pos content hn1 hn2 hat
    rcases hres : djangoResolveCallees entities (getBaseEntityNames entities)
        content content.objectTypes with _ | k
    · have hspec := unknown_bucket_spec unknowns (content.objectTypes.headD "")
        (djangoMkOperation pos content) hn2
      constructor
      · simp only [djangoProcessMethod, hres]
        omega
      · intro _
        refine ⟨by simp [djangoProcessMethod, hres], ?_⟩
        simpa [djangoProcessMethod, hres] using hspec.2.1
    · have hhas := djangoResolveCallees_has entities content k hat
        content.objectTypes hres
      constructor
      · simp only [djangoProcessMethod, hres]
        rw [totalOps_pushOpAt entities k _ hn1 hhas]
        omega
      · intro hnone
        cases hnone

/-- Witness for C4 at concrete inputs: an unresolvable TypeORM call lands
in the Unknown bucket, and a resolvable Django call attaches once. -/
theorem method_call_exactly_one_attachment_witness :
    (totalOps (typeormProcessMethod (typeormExampleEntities, []) fixPos emRepoFooMsg).1
        + totalOps (typeormProcessMethod (typeormExampleEntities, []) fixPos emRepoFooMsg).2
      = totalOps typeormExampleEntities + totalOps [] + 1)
    ∧ (totalOps (djangoProcessMethod (djangoAmbiguousEntities, [])
          (getBaseEntityNames djangoAmbiguousEntities) fixPos fooManagerMsg).1
        + totalOps (djangoProcessMethod (djangoAmbiguousEntities, [])
          (getBaseEntityNames djangoAmbiguousEntities) fixPos fooManagerMsg).2
      = totalOps djangoAmbiguousEntities + totalOps [] + 1) :=
  ⟨(method_call_exactly_one_attachment.1 typeormExampleEntities [] fixPos emRepoFooMsg
      (by decide) (by decide) (by decide) (by decide) (by decide) (by decide)).1,
   (method_call_exactly_one_attachment.2 djangoAmbiguousEntities [] fixPos fooManagerMsg
      (by decide) (by decide) (by decide)).1⟩

end Splinter
